import Mathlib

/-!
Verification of the Gomoku AI decision engine (`src/gomoku`), a shallow
embedding of the Python sources into Lean 4.

Modelling conventions, applied uniformly:

* Python strings used as cell markers / skill names / error messages are
  embedded as `String`.
* Python `float` scores are embedded as `ℚ`.  Every score produced by the
  evaluator is an integer of magnitude at most `9 * 10 ^ 8` (at most
  `15 * 15 * 4` runs, each worth at most `10 ^ 6`), and every arithmetic
  operation performed on scores (sums, differences, negations, the priority
  `g_cost - sign * evaluation`) is exact in binary64, so the rational and
  floating-point semantics agree on all comparisons that occur.
* Python exceptions are embedded as an explicit `Except` with an error type
  distinguishing `ValueError` / `KeyError` / `NotImplementedError`, because
  the search catches exactly `ValueError` and lets the others propagate.
* `random.Random` is embedded as a seed; `rng.choice(seq)` returns the
  element at `seed % len(seq)` (an arbitrary valid index).  Claims about
  "every rng" quantify over all seeds.
* Mutable objects become explicit state passing: every mutating method of
  `Board` / `Game` is a function returning the updated value, and
  `copy.deepcopy` is the identity on these immutable values.  In
  `simulateSkillEffect` the live object and its deep clone are threaded
  separately so that the frame property (the live game is untouched) is a
  statement about the code, mirroring that every mutating call in the
  source targets the clone.
* Presentation-only fields of `Game` (status messages, action log,
  info message, overlay, commentator, player aliases) are not modelled:
  no path of the search reads them.
* `heapq` is modelled as a list with minimum extraction ordered by
  `(priority, g_cost)` (the first two fields of the `order=True`
  dataclass), taking the earliest minimal element.  All properties proved
  here are insensitive to the order in which equal-priority nodes pop.
-/

namespace Gomoku

/-! ## Configuration constants (`config.py`) -/

def BOARD_SIZE : Nat := 15
def BLACK_STONE : String := "●"
def WHITE_STONE : String := "○"
def EMPTY_CELL : String := "·"
def WIN_SEQUENCE_LENGTH : Nat := 5

/-! ## Players (`game.py`, `class Player`) -/

inductive Player where
  | black
  | white
deriving DecidableEq, Repr

def Player.stone : Player → String
  | .black => BLACK_STONE
  | .white => WHITE_STONE

def Player.opponent : Player → Player
  | .black => .white
  | .white => .black

/-- Search-module map `_PLAYER_INDEX` (`search.py`): BLACK ↦ 0, WHITE ↦ 1. -/
def playerIndex : Player → Nat
  | .black => 0
  | .white => 1

/-! ## Errors and randomness -/

/-- Python exception classes relevant to the engine. -/
inductive Err where
  | valueError (msg : String)
  | keyError (msg : String)
  | notImplementedError
deriving DecidableEq, Repr

/-- Model of `random.Random`: a seed.  `choice` picks an arbitrary valid
index, here `seed % length`; quantifying over all seeds covers all
possible choices of a real generator. -/
structure Rng where
  seed : Nat
deriving DecidableEq, Repr

/-- Model of `rng.choice(l)`; the default is returned only for `l = []`,
where Python would raise `IndexError` (every call site is guarded by a
nonemptiness check). -/
def Rng.choiceD (r : Rng) (l : List α) (dflt : α) : α :=
  l.getD (r.seed % l.length) dflt

theorem Rng.choiceD_singleton (r : Rng) (x dflt : α) :
    Rng.choiceD r [x] dflt = x := by
  simp [Rng.choiceD, Nat.mod_one]

theorem Rng.choiceD_mem (r : Rng) (l : List α) (dflt : α) (h : l ≠ []) :
    Rng.choiceD r l dflt ∈ l := by
  have hlen : 0 < l.length := List.length_pos.mpr h
  have hlt : r.seed % l.length < l.length := Nat.mod_lt _ hlen
  simp only [Rng.choiceD, List.getD, List.get?_eq_getElem?,
    List.getElem?_eq_getElem hlt, Option.getD_some]
  exact List.getElem_mem hlt

/-! ## Grid snapshots (`search.py`, `Grid = Tuple[Tuple[str, ...], ...]`)

Coordinates are pairs of integers (Python ints may go negative in the
neighborhood scan before the bounds check filters them out). -/

abbrev Coordinate := Int × Int
abbrev Grid := List (List String)

/-- Cell lookup.  Every access in the source is guarded by an explicit
bounds check, so the out-of-bounds default is never observed on the
guarded paths; it is `EMPTY_CELL` so that unguarded occupancy tests
(`_apply_move`) treat out-of-range coordinates as unoccupied. -/
def cellAt (grid : Grid) (r c : Int) : String :=
  if 0 ≤ r ∧ 0 ≤ c then (grid.getD r.toNat []).getD c.toNat EMPTY_CELL
  else EMPTY_CELL

/-- Write a cell (the mutable-copy-then-freeze idiom of `_apply_move`). -/
def setCell (grid : Grid) (r c : Int) (stone : String) : Grid :=
  grid.set r.toNat ((grid.getD r.toNat []).set c.toNat stone)

/-! ## Cooldown snapshots (`search.py`, `_CooldownState`) -/

structure CooldownState where
  skillNames : List String
  /-- One row per player, in `_PLAYER_INDEX` order (black then white). -/
  values : List (List Nat)
  roundNumber : Nat
deriving DecidableEq, Repr

def CooldownState.forPlayer (s : CooldownState) (p : Player) : List Nat :=
  s.values.getD (playerIndex p) []

/-- `_CooldownState.advance_after_move`. -/
def CooldownState.advanceAfterMove (s : CooldownState) (p : Player) : CooldownState :=
  let opponentIndex := playerIndex p.opponent
  let opponentCooldowns :=
    (s.values.getD opponentIndex []).map (fun cooldown => if cooldown > 0 then cooldown - 1 else 0)
  { skillNames := s.skillNames
    values := s.values.set opponentIndex opponentCooldowns
    roundNumber := s.roundNumber + 1 }

/-- Python `list.index`: index of the first occurrence, `none` if absent. -/
def listIndex (name : String) : List String → Option Nat
  | [] => none
  | x :: xs => if x = name then some 0 else (listIndex name xs).map (fun i => i + 1)

/-- `_CooldownState.with_skill_triggered`; raises `KeyError` when the name
is absent from the snapshot list (the `list.index` failure path). -/
def CooldownState.withSkillTriggered (s : CooldownState) (p : Player)
    (skillName : String) (cooldownTurns : Nat) : Except Err CooldownState :=
  match listIndex skillName s.skillNames with
  | none => .error (.keyError ("Unknown skill: " ++ skillName))
  | some skillIndex =>
      let row := s.values.getD (playerIndex p) []
      .ok { skillNames := s.skillNames
            values := s.values.set (playerIndex p) (row.set skillIndex cooldownTurns)
            roundNumber := s.roundNumber }

/-! ## The evaluation table (`search.py`, `_sequence_score`) -/

def sequenceScore (length openEnds : Nat) : ℚ :=
  if length ≥ WIN_SEQUENCE_LENGTH then 1000000
  else if length = WIN_SEQUENCE_LENGTH - 1 then
    if openEnds = 2 then 50000 else 5000
  else if length = WIN_SEQUENCE_LENGTH - 2 then
    if openEnds = 2 then 2000 else 400
  else if length = WIN_SEQUENCE_LENGTH - 3 then
    if openEnds = 2 then 200 else 50
  else if length = 2 then
    if openEnds = 2 then 30 else 10
  else 1

/-! ## Skills (`skills.py`) -/

/-- The Python subclass of `Skill` providing `apply` (`base` is the abstract
class whose `apply` raises `NotImplementedError`). -/
inductive SkillKind where
  | stoneStorm
  | stillWaters
  | mightyClearing
  | seizeAndMove
  | base
deriving DecidableEq, Repr

structure Skill where
  name : String
  cooldownTurns : Nat
  initialCooldown : Nat
  kind : SkillKind
deriving DecidableEq, Repr

/-- Values stored in `SkillResult.details` (coordinates or strings). -/
inductive Detail where
  | coord (c : Coordinate)
  | str (s : String)
deriving DecidableEq, Repr

structure SkillResult where
  skillName : String
  playerName : String
  description : String
  details : List (String × Detail)
deriving DecidableEq, Repr

def stoneStormSkill : Skill :=
  { name := "飞沙走石", cooldownTurns := 5, initialCooldown := 5, kind := .stoneStorm }

def stillWatersSkill : Skill :=
  { name := "静如止水", cooldownTurns := 7, initialCooldown := 0, kind := .stillWaters }

def mightyClearingSkill : Skill :=
  { name := "力拔山兮", cooldownTurns := 12, initialCooldown := 7, kind := .mightyClearing }

def seizeAndMoveSkill : Skill :=
  { name := "擒擒拿拿", cooldownTurns := 9, initialCooldown := 3, kind := .seizeAndMove }

/-- `ALL_SKILLS`, an insertion-ordered dict keyed by skill name. -/
def ALL_SKILLS : List (String × Skill) :=
  [ (stoneStormSkill.name, stoneStormSkill),
    (stillWatersSkill.name, stillWatersSkill),
    (mightyClearingSkill.name, mightyClearingSkill),
    (seizeAndMoveSkill.name, seizeAndMoveSkill) ]

/-! ## Board (`board.py`) -/

abbrev MoveRecord := String × Coordinate

def DIRECTIONS : List (Int × Int) := [(1, 0), (0, 1), (1, 1), (1, -1)]

/-- One step-and-test iteration chain of `_count_in_direction` (both the
`Board` method and the module-level function in `search.py` have this exact
loop).  Fuel bounds the walk; `size + 1` steps always suffice because along
a nonzero direction at most `size` in-bounds cells can match, and running
out of fuel returns the same count as hitting the boundary. -/
def countInDirectionAux (grid : Grid) (size : Int) (stone : String)
    (dr dc : Int) : Nat → Int → Int → Nat
  | 0, _, _ => 0
  | fuel + 1, row, col =>
      let row := row + dr
      let col := col + dc
      if 0 ≤ row ∧ row < size ∧ 0 ≤ col ∧ col < size then
        if cellAt grid row col ≠ stone then 0
        else countInDirectionAux grid size stone dr dc fuel row col + 1
      else 0

def countInDirection (grid : Grid) (coord : Coordinate) (stone : String)
    (delta : Int × Int) : Nat :=
  countInDirectionAux grid (grid.length : Int) stone delta.1 delta.2
    (grid.length + 1) coord.1 coord.2

def lineLength (grid : Grid) (coord : Coordinate) (stone : String)
    (delta : Int × Int) : Nat :=
  1 + countInDirection grid coord stone delta
    + countInDirection grid coord stone (-delta.1, -delta.2)

def formsWinningLine (grid : Grid) (coord : Coordinate) (stone : String)
    (winLength : Nat) : Bool :=
  DIRECTIONS.any (fun delta => lineLength grid coord stone delta ≥ winLength)

structure Board where
  size : Nat
  winLength : Nat
  grid : Grid
  history : List MoveRecord
deriving DecidableEq, Repr

/-- Fresh board as built by `Board.__post_init__` (the `size > 0` and
`win_length > 1` guards are enforced there). -/
def Board.new (size winLength : Nat) : Board :=
  { size := size, winLength := winLength,
    grid := List.replicate size (List.replicate size EMPTY_CELL),
    history := [] }

def Board.isWithinBounds (b : Board) (coord : Coordinate) : Prop :=
  0 ≤ coord.1 ∧ coord.1 < (b.size : Int) ∧ 0 ≤ coord.2 ∧ coord.2 < (b.size : Int)

instance (b : Board) (coord : Coordinate) : Decidable (b.isWithinBounds coord) := by
  unfold Board.isWithinBounds; infer_instance

def Board.get (b : Board) (coord : Coordinate) : Option String :=
  if b.isWithinBounds coord then some (cellAt b.grid coord.1 coord.2) else none

def Board.isEmptyCell (b : Board) (coord : Coordinate) : Bool :=
  match b.get coord with
  | some value => value = EMPTY_CELL
  | none => false

def Board.isFull (b : Board) : Bool :=
  b.grid.all (fun row => row.all (fun cell => cell ≠ EMPTY_CELL))

/-- Row-major iteration over occupied coordinates (`Board.occupied_cells`). -/
def Board.occupiedCells (b : Board) : List Coordinate :=
  (List.range b.grid.length).flatMap (fun r =>
    (List.range ((b.grid.getD r []).length)).filterMap (fun c =>
      if (b.grid.getD r []).getD c EMPTY_CELL ≠ EMPTY_CELL
      then some ((r : Int), (c : Int)) else none))

def Board.placeStone (b : Board) (coord : Coordinate) (stone : String) :
    Except Err (Board × Bool) :=
  if stone = "" ∨ stone = EMPTY_CELL then
    .error (.valueError "棋子符号不能为空，也不能与空位标记相同")
  else if ¬ b.isWithinBounds coord then
    .error (.valueError "坐标超出棋盘范围")
  else if ¬ b.isEmptyCell coord then
    .error (.valueError "坐标已经有棋子了")
  else
    let grid := setCell b.grid coord.1 coord.2 stone
    let b := { b with grid := grid, history := b.history ++ [(stone, coord)] }
    .ok (b, formsWinningLine b.grid coord stone b.winLength)

/-- Drop the first element whose coordinate matches (applied to the
reversed history: the source scans indices from the end and pops the first
match). -/
def dropFirstMatch (coord : Coordinate) : List MoveRecord → List MoveRecord
  | [] => []
  | e :: rest => if e.2 = coord then rest else e :: dropFirstMatch coord rest

def removeLastHistoryEntry (hist : List MoveRecord) (coord : Coordinate) :
    List MoveRecord :=
  (dropFirstMatch coord hist.reverse).reverse

def Board.removeStone (b : Board) (coord : Coordinate) :
    Except Err (Board × String) :=
  if ¬ b.isWithinBounds coord then
    .error (.valueError "坐标超出棋盘范围")
  else
    let stone := cellAt b.grid coord.1 coord.2
    if stone = EMPTY_CELL then .error (.valueError "坐标上没有棋子")
    else
      .ok ({ b with
             grid := setCell b.grid coord.1 coord.2 EMPTY_CELL,
             history := removeLastHistoryEntry b.history coord }, stone)

def Board.clearAll (b : Board) : Board :=
  { b with
    grid := List.replicate b.size (List.replicate b.size EMPTY_CELL),
    history := [] }

/-! ## Game state (`game.py`)

Presentation-only fields (status messages, action log, info message,
overlay, commentator, player aliases, log capacity) are omitted: no code
path of the search engine reads them. -/

structure MoveResult where
  coordinate : Coordinate
  player : Player
  stone : String
  producedWin : Bool
  producedDraw : Bool
deriving DecidableEq, Repr

structure Game where
  board : Board
  currentPlayer : Player
  cursor : Coordinate
  lastMove : Option MoveResult
  lastSkill : Option SkillResult
  winner : Option Player
  draw : Bool
  rng : Rng
  skillRegistry : List (String × Skill)
  skipNextPlayer : Option Player
  skippedLastPlayer : Option Player
  cooldownsBlack : List (String × Nat)
  cooldownsWhite : List (String × Nat)
deriving DecidableEq, Repr

def Game.cooldownsFor (g : Game) : Player → List (String × Nat)
  | .black => g.cooldownsBlack
  | .white => g.cooldownsWhite

def Game.setCooldowns (g : Game) (p : Player) (l : List (String × Nat)) : Game :=
  match p with
  | .black => { g with cooldownsBlack := l }
  | .white => { g with cooldownsWhite := l }

def Game.isFinished (g : Game) : Bool :=
  g.winner.isSome || g.draw

/-- Association-list read with a default (`dict.get(k, d)`). -/
def assocGetD (l : List (String × Nat)) (k : String) (d : Nat) : Nat :=
  match l.lookup k with
  | some v => v
  | none => d

/-- Association-list write (`d[k] = v`): update in place, append if new. -/
def assocSet : List (String × Nat) → String → Nat → List (String × Nat)
  | [], k, v => [(k, v)]
  | (k0, v0) :: rest, k, v =>
      if k0 = k then (k0, v) :: rest else (k0, v0) :: assocSet rest k v

def Game.setCursor (g : Game) (coord : Coordinate) : Except Err Game :=
  if g.board.isWithinBounds coord then .ok { g with cursor := coord }
  else .error (.valueError "光标坐标超出棋盘范围")

/-- `Game.occupied_by_player` (row-major). -/
def Game.occupiedByPlayer (g : Game) (p : Player) : List Coordinate :=
  g.board.occupiedCells.filter (fun coord => g.board.get coord = some p.stone)

def Game.scheduleSkipFor (g : Game) (p : Player) : Game :=
  { g with skipNextPlayer := some p }

/-- `Game._tick_cooldowns`: decrement every positive entry of that player. -/
def Game.tickCooldowns (g : Game) (p : Player) : Game :=
  g.setCooldowns p
    ((g.cooldownsFor p).map (fun e => if e.2 > 0 then (e.1, e.2 - 1) else e))

/-- Loop body of `Game._move_to_player`.  The source loops until the
entered player is not scheduled to be skipped; `skip_next_player` is
consumed on the first skip, so two iterations always suffice and fuel `2`
is exact. -/
def Game.moveToPlayerAux : Nat → Game → Player → Bool → Game
  | 0, g, _, _ => g
  | fuel + 1, g, p, skipped =>
      let g := { g with currentPlayer := p }
      let g := g.tickCooldowns p
      if g.skipNextPlayer = some p then
        let g := { g with skipNextPlayer := none, skippedLastPlayer := some p }
        Game.moveToPlayerAux fuel g p.opponent true
      else if skipped then g
      else { g with skippedLastPlayer := none }

def Game.moveToPlayer (g : Game) (p : Player) : Game :=
  Game.moveToPlayerAux 2 g p false

def Game.advanceAfterAction (g : Game) : Game :=
  g.moveToPlayer g.currentPlayer.opponent

/-- Python `Enum.name` strings, stored in `SkillResult.player_name`. -/
def Player.pyName : Player → String
  | .black => "BLACK"
  | .white => "WHITE"

/-- Sequencing of a fallible call with the rest of a Python function body:
a raised exception propagates, otherwise execution continues with the
value. -/
def exceptStep (x : Except Err α) (f : α → Except Err β) : Except Err β :=
  match x with
  | .error e => .error e
  | .ok a => f a

/-! ### Skill `apply` implementations (`skills.py`).  Result descriptions
are fixed strings (coordinate formatting is presentational). -/

def stoneStormApply (skill : Skill) (g : Game) (p : Player) (rng : Rng) :
    Except Err (Game × SkillResult) :=
  let opponentCoords := g.occupiedByPlayer p.opponent
  if opponentCoords.isEmpty then .error (.valueError "对方棋盘上没有可移除的棋子")
  else
    let cursorTarget : Option Coordinate :=
      if g.board.get g.cursor = some p.opponent.stone then some g.cursor else none
    let target :=
      match cursorTarget with
      | some t => t
      | none => rng.choiceD opponentCoords (0, 0)
    exceptStep (g.board.removeStone target) (fun br =>
      let g1 := { g with board := br.1 }
      let g2 :=
        match g1.lastMove with
        | some mv => if mv.coordinate = target then { g1 with lastMove := none } else g1
        | none => g1
      exceptStep (if cursorTarget.isSome then g2.setCursor target else .ok g2) (fun g3 =>
        .ok (g3, { skillName := skill.name, playerName := p.pyName,
                   description := "移除了对手的棋子",
                   details := [("removed", .coord target), ("stone", .str br.2)] })))

def stillWatersApply (skill : Skill) (g : Game) (p : Player) :
    Except Err (Game × SkillResult) :=
  .ok (g.scheduleSkipFor p.opponent,
       { skillName := skill.name, playerName := p.pyName,
         description := "对手的下一回合将被跳过",
         details := [("skipped", .str p.opponent.pyName)] })

def mightyClearingApply (skill : Skill) (g : Game) (p : Player) :
    Except Err (Game × SkillResult) :=
  .ok ({ g with
         board := g.board.clearAll, lastMove := none,
         winner := none, draw := false },
       { skillName := skill.name, playerName := p.pyName,
         description := "棋盘被全部清空", details := [] })

/-- `SeizeAndMoveSkill._find_target`: row-major empty cells other than the
source. -/
def seizeEmptyTargets (b : Board) (source : Coordinate) : List Coordinate :=
  (List.range b.size).flatMap (fun (r : Nat) =>
    (List.range b.size).filterMap (fun (c : Nat) =>
      let coord : Coordinate := ((r : Int), (c : Int))
      if coord = source then none
      else if b.isEmptyCell coord then some coord else none))

def seizeAndMoveApply (skill : Skill) (g : Game) (p : Player) (rng : Rng) :
    Except Err (Game × SkillResult) :=
  let source := g.cursor
  if g.board.get source ≠ some p.opponent.stone then
    .error (.valueError "光标需要停在对手的棋子上才能使用擒擒拿拿")
  else
    let empties := seizeEmptyTargets g.board source
    if empties.isEmpty then .error (.valueError "棋盘上没有可供移动的空位")
    else
      let target := rng.choiceD empties (0, 0)
      exceptStep (g.board.removeStone source) (fun br =>
        let g1 := { g with board := br.1 }
        let g2 :=
          match g1.lastMove with
          | some mv => if mv.coordinate = source then { g1 with lastMove := none } else g1
          | none => g1
        exceptStep (g2.board.placeStone target br.2) (fun bp =>
          let g3 := { g2 with board := bp.1 }
          let g4 :=
            if bp.2 then
              { g3 with winner := some p.opponent, draw := false, lastMove := none }
            else g3
          .ok (g4, { skillName := skill.name, playerName := p.pyName,
                     description := "搬运了对手棋子",
                     details := [("from", .coord source), ("to", .coord target)] })))

/-- Dynamic dispatch of `skill.apply(game, player, rng)` on the skill's
class; the abstract base raises `NotImplementedError`. -/
def skillApply (skill : Skill) (g : Game) (p : Player) (rng : Rng) :
    Except Err (Game × SkillResult) :=
  match skill.kind with
  | .stoneStorm => stoneStormApply skill g p rng
  | .stillWaters => stillWatersApply skill g p
  | .mightyClearing => mightyClearingApply skill g p
  | .seizeAndMove => seizeAndMoveApply skill g p rng
  | .base => .error .notImplementedError

/-- `Game.use_skill`. -/
def Game.useSkill (g : Game) (skillName : String) :
    Except Err (Game × SkillResult) :=
  if g.isFinished then .error (.valueError "对局已经结束")
  else
    match g.skillRegistry.lookup skillName with
    | none => .error (.valueError ("未知技能：" ++ skillName))
    | some skill =>
      match (g.cooldownsFor g.currentPlayer).lookup skill.name with
      | none => .error (.keyError skill.name)
      | some remaining =>
        if remaining > 0 then .error (.valueError "技能还需回合冷却")
        else
          exceptStep (skillApply skill g g.currentPlayer g.rng) (fun gr =>
            let g2 := gr.1
            let result := gr.2
            let g3 := g2.setCooldowns g2.currentPlayer
              (assocSet (g2.cooldownsFor g2.currentPlayer) skill.name skill.cooldownTurns)
            let g4 := { g3 with lastSkill := some result }
            let g5 := if g4.isFinished then g4 else g4.advanceAfterAction
            .ok (g5, result))

/-- Per-player cooldown dicts as built by `Game.__post_init__`. -/
def initialCooldowns (registry : List (String × Skill)) : List (String × Nat) :=
  registry.map (fun e => (e.1, e.2.initialCooldown))

/-- `Game.new()`: the default initial state (15×15 empty board, black to
move, cursor at the center, `ALL_SKILLS` registry with initial cooldowns). -/
def Game.new (rng : Rng) : Game :=
  { board := Board.new BOARD_SIZE WIN_SEQUENCE_LENGTH
    currentPlayer := .black
    cursor := (((BOARD_SIZE / 2 : Nat) : Int), ((BOARD_SIZE / 2 : Nat) : Int))
    lastMove := none
    lastSkill := none
    winner := none
    draw := false
    rng := rng
    skillRegistry := ALL_SKILLS
    skipNextPlayer := none
    skippedLastPlayer := none
    cooldownsBlack := initialCooldowns ALL_SKILLS
    cooldownsWhite := initialCooldowns ALL_SKILLS }

/-! ## Search module (`search.py`) -/

def MAX_EXPANSIONS : Nat := 5000
def MAX_STONESTORM_BRANCHES : Nat := 3
def STONE_STORM : String := "飞沙走石"
def STILL_WATERS : String := "静如止水"
def SEIZE_AND_MOVE : String := "擒擒拿拿"
def MIGHTY_CLEARING : String := "力拔山兮"

/-- `_CooldownState.from_game` (player rows in `Player` iteration order:
black then white; missing dict entries default to 0 via `.get`). -/
def CooldownState.fromGame (game : Game) (skillNames : List String) : CooldownState :=
  { skillNames := skillNames
    values :=
      [ skillNames.map (fun name => assocGetD (game.cooldownsFor .black) name 0),
        skillNames.map (fun name => assocGetD (game.cooldownsFor .white) name 0) ]
    roundNumber := game.board.history.length }

/-- `_grid_from_board`: the tuple snapshot is the board grid value itself. -/
def gridFromBoard (game : Game) : Grid :=
  game.board.grid

/-- `SearchAction`; the `__post_init__` validity conditions (exactly one of
move/skill, Stone Storm requires a target) hold at every construction site
below, so they are not embedded as a failure path. -/
structure SearchAction where
  move : Option Coordinate
  skill : Option String
  skillTarget : Option Coordinate
deriving DecidableEq, Repr

def SearchAction.place (c : Coordinate) : SearchAction :=
  { move := some c, skill := none, skillTarget := none }

def SearchAction.activateSkill (name : String) (target : Option Coordinate) :
    SearchAction :=
  { move := none, skill := some name, skillTarget := target }

structure SearchNode where
  priority : ℚ
  gCost : Nat
  grid : Grid
  playerToMove : Player
  firstAction : SearchAction
  evaluation : ℚ
  isTerminal : Bool
  cooldownState : CooldownState
deriving DecidableEq, Repr

/-! ### Candidate move generation (`_candidate_moves`) -/

/-- Offsets of `range(-2, 3) × range(-2, 3)` in loop order. -/
def deltaRange : List Int := [-2, -1, 0, 1, 2]

def neighborDeltas : List (Int × Int) :=
  deltaRange.flatMap (fun dr => deltaRange.map (fun dc => (dr, dc)))

/-- Row-major occupied coordinates of a grid snapshot. -/
def gridOccupied (grid : Grid) : List Coordinate :=
  (List.range grid.length).flatMap (fun (r : Nat) =>
    (List.range grid.length).filterMap (fun (c : Nat) =>
      if cellAt grid (r : Int) (c : Int) ≠ EMPTY_CELL
      then some ((r : Int), (c : Int)) else none))

/-- Row-major empty coordinates (the degenerate full-scan fallback). -/
def allEmptyCells (grid : Grid) : List Coordinate :=
  (List.range grid.length).flatMap (fun (r : Nat) =>
    (List.range grid.length).filterMap (fun (c : Nat) =>
      if cellAt grid (r : Int) (c : Int) = EMPTY_CELL
      then some ((r : Int), (c : Int)) else none))

/-- The neighborhood scan of `_candidate_moves` over the flattened
(occupied cell, offset) loop, threading the `seen` set. -/
def collectNeighbors (grid : Grid) (size : Int) :
    List (Coordinate × (Int × Int)) → List Coordinate → List Coordinate
  | [], _ => []
  | (rc, d) :: rest, seen =>
      if d.1 = 0 ∧ d.2 = 0 then collectNeighbors grid size rest seen
      else
        let nr := rc.1 + d.1
        let nc := rc.2 + d.2
        if 0 ≤ nr ∧ nr < size ∧ 0 ≤ nc ∧ nc < size ∧
            cellAt grid nr nc = EMPTY_CELL then
          if (nr, nc) ∈ seen then collectNeighbors grid size rest seen
          else (nr, nc) :: collectNeighbors grid size rest ((nr, nc) :: seen)
        else collectNeighbors grid size rest seen

def candidateMoves (grid : Grid) : List Coordinate :=
  let size : Int := grid.length
  let occupied := gridOccupied grid
  if occupied.isEmpty then
    let center := size / 2
    [(center, center)]
  else
    let pairs := occupied.flatMap (fun rc => neighborDeltas.map (fun d => (rc, d)))
    let found := collectNeighbors grid size pairs []
    if found.isEmpty then allEmptyCells grid else found

/-! ### Move application and terminal tests -/

def applyMove (grid : Grid) (coord : Coordinate) (stone : String) :
    Except Err (Grid × Bool) :=
  if cellAt grid coord.1 coord.2 ≠ EMPTY_CELL then
    .error (.valueError "坐标已经有棋子了")
  else
    let newGrid := setCell grid coord.1 coord.2 stone
    .ok (newGrid, formsWinningLine newGrid coord stone WIN_SEQUENCE_LENGTH)

def isDraw (grid : Grid) : Bool :=
  grid.all (fun row => row.all (fun cell => cell ≠ EMPTY_CELL))

/-! ### Static evaluation (`_static_evaluation` and helpers) -/

/-- One direction of the run walk in `_sequence_metrics`: number of
consecutive matching stones starting at the given cell, plus the exit
position for the open-end test.  Fuel `size + 1` always suffices (at most
`size` in-bounds matches). -/
def metricsWalk (grid : Grid) (size : Int) (stone : String) (dr dc : Int) :
    Nat → Int → Int → Nat × Int × Int
  | 0, r, c => (0, r, c)
  | fuel + 1, r, c =>
      if 0 ≤ r ∧ r < size ∧ 0 ≤ c ∧ c < size ∧ cellAt grid r c = stone then
        let w := metricsWalk grid size stone dr dc fuel (r + dr) (c + dc)
        (w.1 + 1, w.2)
      else (0, r, c)

def sequenceMetrics (grid : Grid) (coord : Coordinate) (stone : String)
    (delta : Int × Int) : Nat × Nat :=
  let size : Int := grid.length
  let fwd := metricsWalk grid size stone delta.1 delta.2 (grid.length + 1)
    coord.1 coord.2
  let fOpen :=
    if 0 ≤ fwd.2.1 ∧ fwd.2.1 < size ∧ 0 ≤ fwd.2.2 ∧ fwd.2.2 < size ∧
        cellAt grid fwd.2.1 fwd.2.2 = EMPTY_CELL then 1 else 0
  let bwd := metricsWalk grid size stone (-delta.1) (-delta.2) (grid.length + 1)
    (coord.1 - delta.1) (coord.2 - delta.2)
  let bOpen :=
    if 0 ≤ bwd.2.1 ∧ bwd.2.1 < size ∧ 0 ≤ bwd.2.2 ∧ bwd.2.2 < size ∧
        cellAt grid bwd.2.1 bwd.2.2 = EMPTY_CELL then 1 else 0
  (fwd.1 + bwd.1, fOpen + bOpen)

/-- Row-major cell coordinates of a grid (the double loop of
`_score_for_player`). -/
def gridCells (grid : Grid) : List Coordinate :=
  (List.range grid.length).flatMap (fun (r : Nat) =>
    (List.range grid.length).map (fun (c : Nat) => ((r : Int), (c : Int))))

def scoreForPlayer (grid : Grid) (player : Player) : ℚ :=
  let stone := player.stone
  let size : Int := grid.length
  (gridCells grid).foldl (fun total coord =>
    if cellAt grid coord.1 coord.2 ≠ stone then total
    else
      DIRECTIONS.foldl (fun total delta =>
        let pr := coord.1 - delta.1
        let pc := coord.2 - delta.2
        if 0 ≤ pr ∧ pr < size ∧ 0 ≤ pc ∧ pc < size ∧ cellAt grid pr pc = stone
        then total
        else
          let m := sequenceMetrics grid coord stone delta
          total + sequenceScore m.1 m.2) total) 0

def staticEvaluation (grid : Grid) (perspective : Player) : ℚ :=
  scoreForPlayer grid perspective - scoreForPlayer grid perspective.opponent

def priorityOf (gCost : Nat) (evaluation : ℚ) (playerToMove rootPlayer : Player) : ℚ :=
  (gCost : ℚ) - (if playerToMove = rootPlayer then 1 else -1) * evaluation

/-! ### Skill simulation at the root -/

/-- `copy.deepcopy` produces an independent object with the same value. -/
def deepcopyGame (g : Game) : Game := g

def deepcopyRng (r : Rng) : Rng := r

/-- The detached clone prepared by `_simulate_skill_effect`: a deep copy
of the live game whose rng is replaced by a copy of the supplied rng (or a
fresh generator when none is supplied). -/
def simClone (live : Game) (rngOpt : Option Rng) : Game :=
  { deepcopyGame live with
    rng := match rngOpt with
           | some r => deepcopyRng r
           | none => Rng.mk 0 }

/-- Local variables of `_simulate_skill_effect`: the caller's live object
and the detached clone; every mutating call in the source targets the
clone, so the live component is only ever threaded through. -/
def simulateSkillEffect (live : Game) (cds : CooldownState) (skillName : String)
    (rngOpt : Option Rng) (skillTarget : Option Coordinate) :
    Game × Except Err (Game × CooldownState) :=
  if (live.skillRegistry.lookup skillName).isNone then
    (live, .error (.keyError ("Unknown skill: " ++ skillName)))
  else
    let simulatedGame := simClone live rngOpt
    match (match skillTarget with
           | some t => simulatedGame.setCursor t
           | none => .ok simulatedGame) with
    | .error e => (live, .error e)
    | .ok sg =>
        match sg.useSkill skillName with
        | .error e => (live, .error e)
        | .ok (sg2, _) => (live, .ok (sg2, CooldownState.fromGame sg2 cds.skillNames))

/-- `_ready_skill_names`: registry keys whose remaining cooldown for the
current player is 0 (missing entries read as 0). -/
def readySkillNames (game : Game) : List String :=
  (game.skillRegistry.map (fun e => e.1)).filter (fun name =>
    assocGetD (game.cooldownsFor game.currentPlayer) name 0 = 0)

/-- `_skill_order`. -/
def skillOrderOf (game : Game) : List String :=
  if game.skillRegistry.isEmpty then ALL_SKILLS.map (fun e => e.1)
  else game.skillRegistry.map (fun e => e.1)

/-- The scored-target loop of `_stone_storm_simulations`, with the
`except ValueError: continue` recovery; other exceptions propagate. -/
def stormScored (game : Game) (cds : CooldownState) (rng : Rng) :
    List Coordinate → Except Err (List (ℚ × Coordinate × Game × CooldownState))
  | [] => .ok []
  | target :: rest =>
      match simulateSkillEffect game cds STONE_STORM (some rng) (some target) with
      | (_, .error (.valueError _)) => stormScored game cds rng rest
      | (_, .error e) => .error e
      | (_, .ok (simGame, simState)) =>
          let evaluation := staticEvaluation (gridFromBoard simGame) game.currentPlayer
          (stormScored game cds rng rest).map
            (fun l => (evaluation, target, simGame, simState) :: l)

/-- Stable descending insertion by evaluation, matching Python's stable
`sort(key=..., reverse=True)`. -/
def insertDescByEval (x : ℚ × Coordinate × Game × CooldownState) :
    List (ℚ × Coordinate × Game × CooldownState) →
    List (ℚ × Coordinate × Game × CooldownState)
  | [] => [x]
  | y :: ys => if x.1 > y.1 then x :: y :: ys else y :: insertDescByEval x ys

def sortDescByEval (l : List (ℚ × Coordinate × Game × CooldownState)) :
    List (ℚ × Coordinate × Game × CooldownState) :=
  l.foldl (fun acc x => insertDescByEval x acc) []

/-- The target order tried by `_stone_storm_simulations`: the cursor
position first when it holds an opponent stone, then the remaining
opponent stones in row-major order. -/
def stormOrderedTargets (game : Game) : List Coordinate :=
  let opponent := game.currentPlayer.opponent
  let opponentCoords := game.occupiedByPlayer opponent
  let cursorTarget : Option Coordinate :=
    if game.board.get game.cursor = some opponent.stone then some game.cursor
    else none
  (match cursorTarget with | some t => [t] | none => []) ++
    opponentCoords.filter (fun coord => cursorTarget ≠ some coord)

def stoneStormSimulations (game : Game) (cds : CooldownState) (rng : Rng) :
    Except Err (List (SearchAction × Game × CooldownState)) :=
  let opponentCoords := game.occupiedByPlayer game.currentPlayer.opponent
  if opponentCoords.isEmpty then .ok []
  else
    match stormScored game cds rng (stormOrderedTargets game) with
    | .error e => .error e
    | .ok scored =>
        let limited := (sortDescByEval scored).take MAX_STONESTORM_BRANCHES
        .ok (limited.map (fun item =>
          (SearchAction.activateSkill STONE_STORM (some item.2.1),
           item.2.2.1, item.2.2.2)))

/-- The Seize-and-Move target recovery in `_root_skill_simulations`: read
the `"from"` coordinate from the simulated game's `last_skill.details`
(always a 2-tuple of ints when present). -/
def seizeSourceTarget (skillName : String) (simGame : Game) : Option Coordinate :=
  if skillName = SEIZE_AND_MOVE then
    match simGame.lastSkill with
    | some res =>
        match res.details.lookup "from" with
        | some (.coord c) => some c
        | _ => none
    | none => none
  else none

def rootSkillSimAux (game : Game) (cds : CooldownState) (rng : Rng) :
    List String → Except Err (List (SearchAction × Game × CooldownState))
  | [] => .ok []
  | skillName :: rest =>
      if skillName = MIGHTY_CLEARING then rootSkillSimAux game cds rng rest
      else if skillName = STONE_STORM then
        match stoneStormSimulations game cds rng with
        | .error e => .error e
        | .ok storm =>
            (rootSkillSimAux game cds rng rest).map (fun l => storm ++ l)
      else
        match simulateSkillEffect game cds skillName (some rng) none with
        | (_, .error (.valueError _)) => rootSkillSimAux game cds rng rest
        | (_, .error e) => .error e
        | (_, .ok (simGame, simState)) =>
            let target := seizeSourceTarget skillName simGame
            (rootSkillSimAux game cds rng rest).map
              (fun l => (SearchAction.activateSkill skillName target, simGame, simState) :: l)

def rootSkillSimulations (game : Game) (cds : CooldownState) (rngOpt : Option Rng) :
    Except Err (List (SearchAction × Game × CooldownState)) :=
  let rng := match rngOpt with | some r => r | none => game.rng
  rootSkillSimAux game cds rng (readySkillNames game)

/-! ### The best-first loop (`choose_action`) -/

/-- `math.isclose` with the source's tolerances, in exact arithmetic. -/
def iscloseQ (a b : ℚ) : Bool :=
  decide (|a - b| ≤ max ((1 / 1000000000) * max |a| |b|) (1 / 1000000))

/-- The `best_score` / `best_actions` accumulator (`None` models the
initial `-inf`, which every finite score beats and is never close to). -/
structure BestAcc where
  bestScore : Option ℚ
  bestActions : List SearchAction
deriving DecidableEq, Repr

def recordCandidate (acc : BestAcc) (score : ℚ) (action : SearchAction) : BestAcc :=
  match acc.bestScore with
  | none => { bestScore := some score, bestActions := [action] }
  | some b =>
      if score > b then { bestScore := some score, bestActions := [action] }
      else if iscloseQ score b then
        { bestScore := some b, bestActions := acc.bestActions ++ [action] }
      else acc

/-- Frontier order: the first two compared fields of the `order=True`
dataclass (priority, then path cost).  The `heapq` binary-heap layout is
modelled as first-minimal extraction; every property proved below is
insensitive to the order in which equal-key nodes pop. -/
def nodeLt (a b : SearchNode) : Prop :=
  a.priority < b.priority ∨ (a.priority = b.priority ∧ a.gCost < b.gCost)

instance (a b : SearchNode) : Decidable (nodeLt a b) := by
  unfold nodeLt; infer_instance

def popMin : List SearchNode → Option (SearchNode × List SearchNode)
  | [] => none
  | x :: xs =>
      match popMin xs with
      | none => some (x, [])
      | some (m, rest) =>
          if nodeLt m x then some (m, x :: rest) else some (x, xs)

/-- Terminal-score sign correction of the expansion loop. -/
def terminalScoreAdjust (gCost : Nat) (score : ℚ) : ℚ :=
  let parity := gCost % 2
  let score := if parity = 1 ∧ score < 0 then -score else score
  if parity = 0 ∧ score > 0 then -score else score

/-- Child generation of one popped node (the inner `for move in next_moves`
loop), pushing each child onto the frontier. -/
def expandChildren (rootPlayer : Player) (node : SearchNode) :
    List Coordinate → List SearchNode → Except Err (List SearchNode)
  | [], heap => .ok heap
  | move :: rest, heap =>
      let stone := node.playerToMove.stone
      match applyMove node.grid move stone with
      | .error e => .error e
      | .ok (nextGrid, win) =>
          let evaluation := staticEvaluation nextGrid rootPlayer
          let isTerminal := win || isDraw nextGrid
          let gCost := node.gCost + 1
          let nextCooldowns := node.cooldownState.advanceAfterMove node.playerToMove
          let priority := priorityOf gCost evaluation node.playerToMove.opponent rootPlayer
          expandChildren rootPlayer node rest
            (heap ++ [{ priority := priority, gCost := gCost, grid := nextGrid,
                        playerToMove := node.playerToMove.opponent,
                        firstAction := node.firstAction, evaluation := evaluation,
                        isTerminal := isTerminal, cooldownState := nextCooldowns }])

/-- The `while open_nodes and expansions < _MAX_EXPANSIONS` loop; the
remaining-expansion budget is the recursion fuel. -/
def searchLoop (depth : Nat) (rootPlayer : Player) :
    Nat → List SearchNode → BestAcc → Except Err BestAcc
  | 0, _, acc => .ok acc
  | remaining + 1, openNodes, acc =>
      match popMin openNodes with
      | none => .ok acc
      | some (node, rest) =>
          if node.isTerminal || node.gCost ≥ depth then
            let score :=
              if node.isTerminal then terminalScoreAdjust node.gCost node.evaluation
              else node.evaluation
            searchLoop depth rootPlayer remaining rest
              (recordCandidate acc score node.firstAction)
          else
            let nextMoves := candidateMoves node.grid
            if nextMoves.isEmpty then
              searchLoop depth rootPlayer remaining rest
                (recordCandidate acc node.evaluation node.firstAction)
            else
              match expandChildren rootPlayer node nextMoves rest with
              | .error e => .error e
              | .ok newHeap => searchLoop depth rootPlayer remaining newHeap acc

/-- Root seeding over candidate placements (the first `for move in
candidate_moves` loop), pushing a node per move and recording terminal
children immediately. -/
def seedMoves (rootPlayer : Player) (rootCooldowns : CooldownState) (grid : Grid) :
    List Coordinate → List SearchNode × BestAcc →
    Except Err (List SearchNode × BestAcc)
  | [], acc => .ok acc
  | move :: rest, (heap, best) =>
      match applyMove grid move rootPlayer.stone with
      | .error e => .error e
      | .ok (nextGrid, win) =>
          let evaluation := staticEvaluation nextGrid rootPlayer
          let isTerminal := win || isDraw nextGrid
          let priority := priorityOf 1 evaluation rootPlayer.opponent rootPlayer
          let action := SearchAction.place move
          let node : SearchNode :=
            { priority := priority, gCost := 1, grid := nextGrid,
              playerToMove := rootPlayer.opponent, firstAction := action,
              evaluation := evaluation, isTerminal := isTerminal,
              cooldownState := rootCooldowns.advanceAfterMove rootPlayer }
          let best := if isTerminal then recordCandidate best evaluation action else best
          seedMoves rootPlayer rootCooldowns grid rest (heap ++ [node], best)

/-- Root seeding over skill simulations (the `for action, sim_game,
sim_cooldowns in skill_children` loop); this path raises nothing. -/
def seedSkillChildren (rootPlayer : Player) :
    List (SearchAction × Game × CooldownState) →
    List SearchNode × BestAcc → List SearchNode × BestAcc
  | [], acc => acc
  | (action, simGame, simCooldowns) :: rest, (heap, best) =>
      let nextGrid := gridFromBoard simGame
      let evaluation := staticEvaluation nextGrid rootPlayer
      let isTerminal := simGame.isFinished
      let priority := priorityOf 1 evaluation simGame.currentPlayer rootPlayer
      let node : SearchNode :=
        { priority := priority, gCost := 1, grid := nextGrid,
          playerToMove := simGame.currentPlayer, firstAction := action,
          evaluation := evaluation, isTerminal := isTerminal,
          cooldownState := simCooldowns }
      let best := if isTerminal then recordCandidate best evaluation action else best
      seedSkillChildren rootPlayer rest (heap ++ [node], best)

/-- Unreachable default handed to `rng.choice`; every call site is guarded
by a nonemptiness test mirroring the source control flow. -/
def defaultAction : SearchAction := SearchAction.place (0, 0)

/-- The `rng = rng or game.rng` default of `choose_action`. -/
def resolveRng (game : Game) (rngOpt : Option Rng) : Rng :=
  match rngOpt with
  | some r => r
  | none => game.rng

/-- `choose_action`.  `depth` is a natural number; Python clamps any value
below 1 (negative included) to 1, so nonnegative inputs lose no generality. -/
def chooseAction (game : Game) (depth : Nat) (rngOpt : Option Rng) :
    Except Err SearchAction :=
  let depth := if depth < 1 then 1 else depth
  let rng := resolveRng game rngOpt
  let grid := gridFromBoard game
  let currentPlayer := game.currentPlayer
  let skillOrder := skillOrderOf game
  let rootCooldowns := CooldownState.fromGame game skillOrder
  let candidateMovesList := candidateMoves grid
  match rootSkillSimulations game rootCooldowns (some rng) with
  | .error e => .error e
  | .ok skillChildren =>
      if candidateMovesList.isEmpty && skillChildren.isEmpty then
        .error (.valueError "No legal moves or skills available")
      else
        match seedMoves currentPlayer rootCooldowns grid candidateMovesList
            ([], { bestScore := none, bestActions := [] }) with
        | .error e => .error e
        | .ok seeded =>
            let seeded := seedSkillChildren currentPlayer skillChildren seeded
            match searchLoop depth currentPlayer MAX_EXPANSIONS seeded.1 seeded.2 with
            | .error e => .error e
            | .ok best =>
                if best.bestActions.isEmpty then
                  if ¬ candidateMovesList.isEmpty then
                    .ok (SearchAction.place (rng.choiceD candidateMovesList (0, 0)))
                  else if ¬ skillChildren.isEmpty then
                    .ok (rng.choiceD (skillChildren.map (fun child => child.1)) defaultAction)
                  else .error (.valueError "Search failed to identify a viable action")
                else .ok (rng.choiceD best.bestActions defaultAction)

/-- `choose_move`: compatibility wrapper returning a coordinate. -/
def chooseMove (game : Game) (depth : Nat) (rngOpt : Option Rng) :
    Except Err Coordinate :=
  match chooseAction game depth rngOpt with
  | .error e => .error e
  | .ok action =>
      match action.move with
      | none => .error (.valueError
          "Search selected a skill action; use choose_action for full context")
      | some c => .ok c

/-! ## Auxiliary predicates and fixtures for the claim statements -/

/-- Exceptions the root simulation loops recover from: the source's
`except ValueError` handlers catch exactly `ValueError`; `KeyError` and
`NotImplementedError` would propagate out of `choose_action`. -/
def softErr : Err → Prop
  | .valueError _ => True
  | .keyError _ => False
  | .notImplementedError => False

/-- A call that either succeeded or raised a recoverable `ValueError`. -/
def isSoft : Except Err α → Prop
  | .error e => softErr e
  | .ok _ => True

/-- The registry/cooldown consistency that `Game.__post_init__` (and
`reset`) establish: every registered skill is one of the four concrete
skill classes, and both per-player cooldown dicts have an entry for its
name.  Hand-built `Game` values violating this can make `use_skill` raise
`KeyError`/`NotImplementedError`, which the search does not catch. -/
def Game.registryWF (g : Game) : Prop :=
  ∀ e ∈ g.skillRegistry, e.2.kind ≠ SkillKind.base ∧
    (g.cooldownsBlack.lookup e.2.name).isSome ∧
    (g.cooldownsWhite.lookup e.2.name).isSome

instance (g : Game) : Decidable g.registryWF := by
  unfold Game.registryWF; infer_instance

/-- An action available at the root: a placement of some candidate move,
or the action of some root skill simulation.  `choose_action` can only
return such an action. -/
def allowedAction (cands : List Coordinate)
    (sc : List (SearchAction × Game × CooldownState)) (a : SearchAction) : Prop :=
  (∃ m ∈ cands, a = SearchAction.place m) ∨ ∃ x ∈ sc, x.1 = a

/-- Fixture: a 2×2 board with every cell filled (and the game not marked
finished), so no placement candidate exists but Still Waters is ready —
the search must select a skill action. -/
def skillOnlyGame : Game :=
  { board := { size := 2, winLength := 5,
               grid := [[BLACK_STONE, WHITE_STONE], [WHITE_STONE, BLACK_STONE]],
               history := [] }
    currentPlayer := .black
    cursor := (0, 0)
    lastMove := none
    lastSkill := none
    winner := none
    draw := false
    rng := ⟨0⟩
    skillRegistry := ALL_SKILLS
    skipNextPlayer := none
    skippedLastPlayer := none
    cooldownsBlack := initialCooldowns ALL_SKILLS
    cooldownsWhite := initialCooldowns ALL_SKILLS }

/-- Fixture: an empty 1×1 board with the standard registry. -/
def tinyGame : Game :=
  { board := Board.new 1 WIN_SEQUENCE_LENGTH
    currentPlayer := .black
    cursor := (0, 0)
    lastMove := none
    lastSkill := none
    winner := none
    draw := false
    rng := ⟨0⟩
    skillRegistry := ALL_SKILLS
    skipNextPlayer := none
    skippedLastPlayer := none
    cooldownsBlack := initialCooldowns ALL_SKILLS
    cooldownsWhite := initialCooldowns ALL_SKILLS }

/-! ## General list helpers used by the claim proofs -/

theorem list_getD_set_ne (l : List α) (i j : Nat) (x d : α) (h : i ≠ j) :
    (l.set i x).getD j d = l.getD j d := by
  simp only [List.getD_eq_getElem?_getD, List.getElem?_set_ne h]

theorem list_getD_set_self (l : List α) (i : Nat) (x d : α) (h : i < l.length) :
    (l.set i x).getD i d = x := by
  have h2 : i < (l.set i x).length := by simpa using h
  rw [List.getD_eq_getElem?_getD, List.getElem?_eq_getElem h2]
  simp

theorem list_getD_of_length_le (l : List α) (i : Nat) (d : α) (h : l.length ≤ i) :
    l.getD i d = d := by
  rw [List.getD_eq_getElem?_getD, List.getElem?_eq_none h]
  rfl

theorem listIndex_isSome_of_mem {name : String} {l : List String} (h : name ∈ l) :
    ∃ i, listIndex name l = some i := by
  induction l with
  | nil => cases h
  | cons x xs ih =>
      by_cases hx : x = name
      · exact ⟨0, by simp [listIndex, hx]⟩
      · have hmem : name ∈ xs := by
          rcases List.mem_cons.mp h with h1 | h1
          · exact absurd h1.symm hx
          · exact h1
        obtain ⟨i, hi⟩ := ih hmem
        exact ⟨i + 1, by simp [listIndex, hx, hi]⟩

theorem listIndex_lt_length {name : String} :
    ∀ {l : List String} {i : Nat}, listIndex name l = some i → i < l.length := by
  intro l
  induction l with
  | nil => intro i h; simp [listIndex] at h
  | cons x xs ih =>
      intro i h
      by_cases hx : x = name
      · simp only [listIndex, if_pos hx, Option.some.injEq] at h
        simp only [List.length_cons]
        omega
      · simp only [listIndex, if_neg hx, Option.map_eq_some'] at h
        obtain ⟨j, hj, rfl⟩ := h
        have := ih hj
        simp only [List.length_cons]
        omega

/-- Helper for C5: the floored decrement never increases an entry, read
through `getD`. -/
theorem mapped_cooldown_getD_le :
    ∀ (row : List Nat) (i : Nat),
      ((row.map fun c => if c > 0 then c - 1 else 0).getD i 0) ≤ row.getD i 0
  | [], _ => le_refl _
  | c :: _, 0 => by
      show (if c > 0 then c - 1 else 0) ≤ c
      split <;> omega
  | _ :: row, i + 1 => mapped_cooldown_getD_le row i

/-! ## Claim C5 -/

/-- C5: for every cooldown snapshot and every player `p`,
`advance_after_move(p)` leaves `p`'s own cooldown row unchanged, maps each
opponent entry `c` to `c - 1` when `c > 0` and to `0` otherwise (so,
pointwise, entries never increase — and they never go below 0 because they
are naturals), and increments the round counter by exactly 1. -/
theorem advanceAfterMove_spec (s : CooldownState) (p : Player) :
    (s.advanceAfterMove p).forPlayer p = s.forPlayer p ∧
    (s.advanceAfterMove p).forPlayer p.opponent =
      (s.forPlayer p.opponent).map (fun c => if c > 0 then c - 1 else 0) ∧
    (∀ i, ((s.advanceAfterMove p).forPlayer p.opponent).getD i 0 ≤
      (s.forPlayer p.opponent).getD i 0) ∧
    (s.advanceAfterMove p).roundNumber = s.roundNumber + 1 := by
  have hown : (s.advanceAfterMove p).forPlayer p = s.forPlayer p := by
    cases p <;>
      simp only [CooldownState.advanceAfterMove, CooldownState.forPlayer,
        playerIndex, Player.opponent] <;>
      exact list_getD_set_ne _ _ _ _ _ (by decide)
  have hopp : (s.advanceAfterMove p).forPlayer p.opponent =
      (s.forPlayer p.opponent).map (fun c => if c > 0 then c - 1 else 0) := by
    simp only [CooldownState.advanceAfterMove, CooldownState.forPlayer]
    by_cases hlt : playerIndex p.opponent < s.values.length
    · exact list_getD_set_self _ _ _ _ hlt
    · have hle := le_of_not_lt hlt
      rw [List.set_eq_of_length_le hle, list_getD_of_length_le _ _ _ hle]
      rfl
  refine ⟨hown, hopp, ?_, rfl⟩
  intro i
  rw [hopp]
  exact mapped_cooldown_getD_le _ i

/-! ## Claim C6 -/

/-- C6: for every snapshot, player, skill name present in the snapshot's
skill list, and cooldown value `v`, `with_skill_triggered` succeeds and
sets exactly the one (player, skill) entry to `v`, leaving every other
entry of that player, the opponent's whole row, the skill-name list and
the round counter unchanged.  (The operation builds a fresh snapshot; the
input value is immutable in this embedding, mirroring the frozen
dataclass.)  The row-length hypotheses are the 2×K matrix invariant of the
data model, established by `_CooldownState.from_game`. -/
theorem withSkillTriggered_spec (s : CooldownState) (p : Player) (name : String)
    (v : Nat) (hmem : name ∈ s.skillNames) (hrows : s.values.length = 2)
    (hlen : (s.forPlayer p).length = s.skillNames.length) :
    ∃ r i, listIndex name s.skillNames = some i ∧
      s.withSkillTriggered p name v = .ok r ∧
      r.skillNames = s.skillNames ∧
      r.roundNumber = s.roundNumber ∧
      r.forPlayer p.opponent = s.forPlayer p.opponent ∧
      (r.forPlayer p).getD i 0 = v ∧
      (∀ j, j ≠ i → (r.forPlayer p).getD j 0 = (s.forPlayer p).getD j 0) := by
  obtain ⟨i, hi⟩ := listIndex_isSome_of_mem hmem
  have hilt : i < s.skillNames.length := listIndex_lt_length hi
  have hplt : playerIndex p < s.values.length := by
    rw [hrows]; cases p <;> decide
  have hne : playerIndex p ≠ playerIndex p.opponent := by cases p <;> decide
  refine ⟨⟨s.skillNames,
    s.values.set (playerIndex p) ((s.values.getD (playerIndex p) []).set i v),
    s.roundNumber⟩, i, hi, ?_, rfl, rfl, ?_, ?_, ?_⟩
  · simp only [CooldownState.withSkillTriggered, hi]
  · show (s.values.set (playerIndex p)
      ((s.values.getD (playerIndex p) []).set i v)).getD (playerIndex p.opponent) [] =
      s.values.getD (playerIndex p.opponent) []
    exact list_getD_set_ne _ _ _ _ _ hne
  · show ((s.values.set (playerIndex p)
      ((s.values.getD (playerIndex p) []).set i v)).getD (playerIndex p) []).getD i 0 = v
    rw [list_getD_set_self _ _ _ _ hplt]
    exact list_getD_set_self _ _ _ _ (by
      have : (s.values.getD (playerIndex p) []).length = s.skillNames.length := hlen
      omega)
  · intro j hj
    show ((s.values.set (playerIndex p)
      ((s.values.getD (playerIndex p) []).set i v)).getD (playerIndex p) []).getD j 0 =
      (s.forPlayer p).getD j 0
    rw [list_getD_set_self _ _ _ _ hplt]
    exact list_getD_set_ne _ _ _ _ _ (fun h => hj h.symm)

/-- Witness for C6 at a concrete snapshot. -/
theorem withSkillTriggered_spec_witness :
    ∃ r i, listIndex "b" ["a", "b"] = some i ∧
      (CooldownState.mk ["a", "b"] [[1, 2], [3, 4]] 5).withSkillTriggered .black "b" 9 = .ok r ∧
      r.skillNames = ["a", "b"] ∧
      r.roundNumber = 5 ∧
      r.forPlayer Player.black.opponent =
        (CooldownState.mk ["a", "b"] [[1, 2], [3, 4]] 5).forPlayer Player.black.opponent ∧
      (r.forPlayer .black).getD i 0 = 9 ∧
      (∀ j, j ≠ i → (r.forPlayer .black).getD j 0 =
        ((CooldownState.mk ["a", "b"] [[1, 2], [3, 4]] 5).forPlayer .black).getD j 0) :=
  withSkillTriggered_spec ⟨["a", "b"], [[1, 2], [3, 4]], 5⟩ .black "b" 9
    (by decide) (by decide) (by decide)

/-! ## Claim C7 -/

/-- C7: the static evaluation is antisymmetric in the perspective: for any
grid whose stones all belong to the two distinct players `A` and `B`,
`evaluate(g, A) = -evaluate(g, B)`.  (The stone condition is the claim's
hypothesis; the identity holds because the two per-player scores are
subtracted in opposite order.) -/
theorem staticEvaluation_antisymm (g : Grid) (A B : Player) (hAB : A ≠ B)
    (hcells : ∀ row ∈ g, ∀ cell ∈ row,
      cell = EMPTY_CELL ∨ cell = A.stone ∨ cell = B.stone) :
    staticEvaluation g A = -staticEvaluation g B := by
  have hBA : B = A.opponent := by
    cases A <;> cases B <;> simp_all [Player.opponent]
  subst hBA
  cases A <;> simp [staticEvaluation, Player.opponent]

/-- Witness for C7 on a concrete mixed grid. -/
theorem staticEvaluation_antisymm_witness :
    staticEvaluation [[BLACK_STONE, EMPTY_CELL], [EMPTY_CELL, WHITE_STONE]] .black =
      -staticEvaluation [[BLACK_STONE, EMPTY_CELL], [EMPTY_CELL, WHITE_STONE]] .white :=
  staticEvaluation_antisymm _ .black .white (by decide) (by decide)

/-! ## Claim C8 (corrected) -/

/-- C8, counterexample: with the win-length constant `W = 5`, a run of
exactly 2 stones with two open ends is scored by `_sequence_score` as 200,
not 30 as the spec's table row "length = 2 → 30 / 10" states: the
`length == W - 3` branch already matches length 2, so the literal
`length == 2` branch is unreachable. -/
theorem sequenceScore_length_two_counterexample :
    sequenceScore 2 2 = 200 ∧ ¬ sequenceScore 2 2 = 30 := by
  constructor
  · norm_num [sequenceScore, WIN_SEQUENCE_LENGTH]
  · norm_num [sequenceScore, WIN_SEQUENCE_LENGTH]

/-- C8, amended: with `W = 5`, every run of exactly 2 same-colored stones
scored by the Line Evaluator contributes 200 when it has two open ends and
50 when it has one or zero open ends (via the `W - 3` table row; the 30/10
row is dead code for `W = 5`). -/
theorem sequenceScore_length_two (openEnds : Nat) :
    sequenceScore 2 openEnds = if openEnds = 2 then 200 else 50 := by
  norm_num [sequenceScore, WIN_SEQUENCE_LENGTH]

/-! ## Claim C4 -/

/-- C4: `_simulate_skill_effect` never mutates the input game: the first
component of the result is the state of the caller's live object after the
call, and it equals the input in every field (board grid, history,
cooldowns, cursor, rng, and all the rest), for every argument combination
and on every path, success or failure — all effects act on the deep clone. -/
theorem simulateSkillEffect_frame (live : Game) (cds : CooldownState)
    (skillName : String) (rngOpt : Option Rng) (target : Option Coordinate) :
    (simulateSkillEffect live cds skillName rngOpt target).1 = live := by
  unfold simulateSkillEffect
  split
  · rfl
  · dsimp only
    repeat' split
    all_goals rfl

/-! ## Claim C9: the candidate-move generator -/

theorem mem_gridOccupied {grid : Grid} {x : Coordinate} :
    x ∈ gridOccupied grid ↔ ∃ r c : Nat, r < grid.length ∧ c < grid.length ∧
      x = ((r : Int), (c : Int)) ∧ cellAt grid (r : Int) (c : Int) ≠ EMPTY_CELL := by
  constructor
  · intro hx
    obtain ⟨r, hr, hx2⟩ := List.mem_flatMap.mp hx
    obtain ⟨c, hc, hfc⟩ := List.mem_filterMap.mp hx2
    by_cases h : cellAt grid (r : Int) (c : Int) ≠ EMPTY_CELL
    · rw [if_pos h] at hfc
      exact ⟨r, c, List.mem_range.mp hr, List.mem_range.mp hc,
        (Option.some_inj.mp hfc).symm, h⟩
    · rw [if_neg h] at hfc; cases hfc
  · rintro ⟨r, c, hr, hc, rfl, h⟩
    exact List.mem_flatMap.mpr ⟨r, List.mem_range.mpr hr,
      List.mem_filterMap.mpr ⟨c, List.mem_range.mpr hc, by rw [if_pos h]⟩⟩

theorem mem_allEmptyCells {grid : Grid} {x : Coordinate} :
    x ∈ allEmptyCells grid ↔ ∃ r c : Nat, r < grid.length ∧ c < grid.length ∧
      x = ((r : Int), (c : Int)) ∧ cellAt grid (r : Int) (c : Int) = EMPTY_CELL := by
  constructor
  · intro hx
    obtain ⟨r, hr, hx2⟩ := List.mem_flatMap.mp hx
    obtain ⟨c, hc, hfc⟩ := List.mem_filterMap.mp hx2
    by_cases h : cellAt grid (r : Int) (c : Int) = EMPTY_CELL
    · rw [if_pos h] at hfc
      exact ⟨r, c, List.mem_range.mp hr, List.mem_range.mp hc,
        (Option.some_inj.mp hfc).symm, h⟩
    · rw [if_neg h] at hfc; cases hfc
  · rintro ⟨r, c, hr, hc, rfl, h⟩
    exact List.mem_flatMap.mpr ⟨r, List.mem_range.mpr hr,
      List.mem_filterMap.mpr ⟨c, List.mem_range.mpr hc, by rw [if_pos h]⟩⟩

/-- Row-major scans over distinct (row, col) index pairs have no duplicate
coordinates. -/
theorem nodup_coordScan (n : Nat) (f : Nat → Nat → Option Coordinate)
    (hf : ∀ r c x, f r c = some x → x = ((r : Int), (c : Int))) :
    ((List.range n).flatMap (fun r => (List.range n).filterMap (fun c => f r c))).Nodup := by
  refine List.nodup_flatMap.mpr ⟨?_, ?_⟩
  · intro r _
    refine (List.nodup_range n).filterMap ?_
    intro a a' b hb hb'
    have ha := hf r a b (Option.mem_def.mp hb)
    have ha' := hf r a' b (Option.mem_def.mp hb')
    rw [ha] at ha'
    injection ha' with h1 h2
    exact_mod_cast h2
  · refine (List.nodup_range n).imp ?_
    intro r r' hne b hb hb'
    obtain ⟨c, _, hfc⟩ := List.mem_filterMap.mp hb
    obtain ⟨c', _, hfc'⟩ := List.mem_filterMap.mp hb'
    have h1 := hf _ _ _ hfc
    have h2 := hf _ _ _ hfc'
    rw [h1] at h2
    injection h2 with h3 h4
    exact hne (by exact_mod_cast h3)

theorem nodup_gridOccupied (grid : Grid) : (gridOccupied grid).Nodup := by
  unfold gridOccupied
  refine nodup_coordScan _ _ ?_
  intro r c x hx
  by_cases h : cellAt grid (r : Int) (c : Int) ≠ EMPTY_CELL
  · rw [if_pos h] at hx; exact (Option.some_inj.mp hx).symm
  · rw [if_neg h] at hx; cases hx

theorem nodup_allEmptyCells (grid : Grid) : (allEmptyCells grid).Nodup := by
  unfold allEmptyCells
  refine nodup_coordScan _ _ ?_
  intro r c x hx
  by_cases h : cellAt grid (r : Int) (c : Int) = EMPTY_CELL
  · rw [if_pos h] at hx; exact (Option.some_inj.mp hx).symm
  · rw [if_neg h] at hx; cases hx

theorem collectNeighbors_sound (grid : Grid) (size : Int) :
    ∀ (pairs : List (Coordinate × (Int × Int))) (seen : List Coordinate)
      (x : Coordinate), x ∈ collectNeighbors grid size pairs seen →
      x ∉ seen ∧ ∃ rc d, (rc, d) ∈ pairs ∧ x = (rc.1 + d.1, rc.2 + d.2) ∧
        ¬(d.1 = 0 ∧ d.2 = 0) ∧ 0 ≤ x.1 ∧ x.1 < size ∧ 0 ≤ x.2 ∧ x.2 < size ∧
        cellAt grid x.1 x.2 = EMPTY_CELL := by
  intro pairs
  induction pairs with
  | nil => intro seen x hx; simp [collectNeighbors] at hx
  | cons p rest ih =>
      intro seen x hx
      obtain ⟨rc, d⟩ := p
      simp only [collectNeighbors] at hx
      split_ifs at hx with h1 h2 h3
      · obtain ⟨hnot, rc', d', hmem, hrest⟩ := ih seen x hx
        exact ⟨hnot, rc', d', List.mem_cons_of_mem _ hmem, hrest⟩
      · obtain ⟨hnot, rc', d', hmem, hrest⟩ := ih seen x hx
        exact ⟨hnot, rc', d', List.mem_cons_of_mem _ hmem, hrest⟩
      · rcases List.mem_cons.mp hx with hx1 | hx2
        · subst hx1
          exact ⟨h3, rc, d, List.mem_cons_self _ _, rfl, h1,
            h2.1, h2.2.1, h2.2.2.1, h2.2.2.2.1, h2.2.2.2.2⟩
        · obtain ⟨hnot, rc', d', hmem, hrest⟩ := ih _ x hx2
          have hxseen : x ∉ seen := fun hs => hnot (List.mem_cons_of_mem _ hs)
          exact ⟨hxseen, rc', d', List.mem_cons_of_mem _ hmem, hrest⟩
      · obtain ⟨hnot, rc', d', hmem, hrest⟩ := ih seen x hx
        exact ⟨hnot, rc', d', List.mem_cons_of_mem _ hmem, hrest⟩

theorem collectNeighbors_nodup (grid : Grid) (size : Int) :
    ∀ (pairs : List (Coordinate × (Int × Int))) (seen : List Coordinate),
      (collectNeighbors grid size pairs seen).Nodup := by
  intro pairs
  induction pairs with
  | nil => intro seen; simp [collectNeighbors]
  | cons p rest ih =>
      intro seen
      obtain ⟨rc, d⟩ := p
      simp only [collectNeighbors]
      split_ifs with h1 h2 h3
      · exact ih seen
      · exact ih seen
      · refine List.nodup_cons.mpr ⟨?_, ih _⟩
        intro hmem
        have := (collectNeighbors_sound grid size rest _ _ hmem).1
        exact this (List.mem_cons_self _ _)
      · exact ih seen

theorem neighborDeltas_bound {d : Int × Int} (hd : d ∈ neighborDeltas) :
    d.1.natAbs ≤ 2 ∧ d.2.natAbs ≤ 2 := by
  simp only [neighborDeltas, deltaRange, List.mem_flatMap, List.mem_map] at hd
  obtain ⟨dr, hdr, dc, hdc, rfl⟩ := hd
  simp only [List.mem_cons, List.not_mem_nil, or_false] at hdr hdc
  rcases hdr with rfl | rfl | rfl | rfl | rfl <;>
    rcases hdc with rfl | rfl | rfl | rfl | rfl <;> decide

/-- Shared with the C2 development: every candidate's cell reads as empty
(on the degenerate size-0 grid the center read hits the out-of-bounds
default, which is also the empty marker). -/
theorem candidateMoves_cell_empty (grid : Grid) :
    ∀ x ∈ candidateMoves grid, cellAt grid x.1 x.2 = EMPTY_CELL := by
  intro x hx
  simp only [candidateMoves] at hx
  split_ifs at hx with h1 h2
  · have hx' : x = ((grid.length : Int) / 2, (grid.length : Int) / 2) := by
      simpa using hx
    subst hx'
    rcases Nat.eq_zero_or_pos grid.length with h0 | hpos
    · have : grid = [] := List.length_eq_zero.mp h0
      subst this
      rfl
    · have hlt : grid.length / 2 < grid.length := Nat.div_lt_self hpos (by norm_num)
      have hcast : ((grid.length : Int) / 2) = ((grid.length / 2 : Nat) : Int) := rfl
      by_contra hne
      have hmem : (((grid.length : Int) / 2), ((grid.length : Int) / 2)) ∈ gridOccupied grid := by
        rw [hcast]
        exact mem_gridOccupied.mpr ⟨_, _, hlt, hlt, rfl, by rw [← hcast]; exact hne⟩
      rw [List.isEmpty_iff] at h1
      rw [h1] at hmem
      cases hmem
  · obtain ⟨r, c, _, _, rfl, h⟩ := mem_allEmptyCells.mp hx
    exact h
  · obtain ⟨_, _, _, _, _, _, _, _, _, _, h⟩ := collectNeighbors_sound grid _ _ _ _ hx
    exact h

/-- C9: for every grid of positive size (the board constructor enforces
`size > 0`), `_candidate_moves` yields no coordinate twice, yields only
empty in-bounds cells, yields exactly the center on a stone-free grid, and
on a grid with at least one stone every yielded coordinate lies within
Chebyshev distance 2 of some occupied cell — unless the locality scan is
empty, in which case the full row-major list of empty cells is yielded. -/
theorem candidateMoves_spec (grid : Grid) (hsize : 0 < grid.length) :
    (candidateMoves grid).Nodup ∧
    (∀ x ∈ candidateMoves grid,
      (0 ≤ x.1 ∧ x.1 < (grid.length : Int) ∧ 0 ≤ x.2 ∧ x.2 < (grid.length : Int)) ∧
      cellAt grid x.1 x.2 = EMPTY_CELL) ∧
    (gridOccupied grid = [] →
      candidateMoves grid = [((grid.length : Int) / 2, (grid.length : Int) / 2)]) ∧
    (gridOccupied grid ≠ [] →
      (∀ x ∈ candidateMoves grid, ∃ o ∈ gridOccupied grid,
          (x.1 - o.1).natAbs ≤ 2 ∧ (x.2 - o.2).natAbs ≤ 2) ∨
      (collectNeighbors grid (grid.length : Int)
          ((gridOccupied grid).flatMap (fun rc => neighborDeltas.map (fun d => (rc, d)))) [] = [] ∧
        candidateMoves grid = allEmptyCells grid)) := by
  have hcenter_cast : ((grid.length : Int) / 2) = ((grid.length / 2 : Nat) : Int) := rfl
  have hcenter_lt : grid.length / 2 < grid.length := Nat.div_lt_self hsize (by norm_num)
  refine ⟨?_, ?_, ?_, ?_⟩
  · simp only [candidateMoves]
    split_ifs with h1 h2
    · exact List.nodup_singleton _
    · exact nodup_allEmptyCells grid
    · exact collectNeighbors_nodup grid _ _ _
  · intro x hx
    have hempty := candidateMoves_cell_empty grid x hx
    refine ⟨?_, hempty⟩
    simp only [candidateMoves] at hx
    split_ifs at hx with h1 h2
    · have hx' : x = ((grid.length : Int) / 2, (grid.length : Int) / 2) := by
        simpa using hx
      subst hx'
      dsimp only
      rw [hcenter_cast]
      exact ⟨Int.natCast_nonneg _, by exact_mod_cast hcenter_lt,
        Int.natCast_nonneg _, by exact_mod_cast hcenter_lt⟩
    · obtain ⟨r, c, hr, hc, rfl, _⟩ := mem_allEmptyCells.mp hx
      dsimp only
      exact ⟨Int.natCast_nonneg r, by exact_mod_cast hr,
        Int.natCast_nonneg c, by exact_mod_cast hc⟩
    · obtain ⟨_, rc, d, _, _, _, hb1, hb2, hb3, hb4, _⟩ :=
        collectNeighbors_sound grid _ _ _ _ hx
      exact ⟨hb1, hb2, hb3, hb4⟩
  · intro hocc
    simp only [candidateMoves]
    rw [if_pos (by rw [List.isEmpty_iff]; exact hocc)]
  · intro hocc
    by_cases hfound : collectNeighbors grid (grid.length : Int)
        ((gridOccupied grid).flatMap (fun rc => neighborDeltas.map (fun d => (rc, d)))) [] = []
    · right
      refine ⟨hfound, ?_⟩
      simp only [candidateMoves]
      rw [if_neg (by rw [List.isEmpty_iff]; exact hocc),
        if_pos (by rw [List.isEmpty_iff]; exact hfound)]
    · left
      intro x hx
      simp only [candidateMoves] at hx
      rw [if_neg (by rw [List.isEmpty_iff]; exact hocc),
        if_neg (by rw [List.isEmpty_iff]; exact hfound)] at hx
      obtain ⟨_, rc, d, hmem, hxeq, _, _, _, _, _, _⟩ :=
        collectNeighbors_sound grid _ _ _ _ hx
      simp only [List.mem_flatMap, List.mem_map] at hmem
      obtain ⟨rc', hrc', d', hd', heq⟩ := hmem
      injection heq with h1 h2
      subst h1
      subst h2
      subst hxeq
      refine ⟨rc', hrc', ?_, ?_⟩
      · simpa [add_sub_cancel_left] using (neighborDeltas_bound hd').1
      · simpa [add_sub_cancel_left] using (neighborDeltas_bound hd').2

/-- Witness for C9 on a concrete 1×1 grid. -/
theorem candidateMoves_spec_witness :
    0 < ([[EMPTY_CELL]] : Grid).length ∧ (candidateMoves [[EMPTY_CELL]]).Nodup :=
  ⟨by decide, (candidateMoves_spec [[EMPTY_CELL]] (by decide)).1⟩

/-! ## Claim C2 infrastructure: which exceptions can escape the root -/

theorem isSoft_of_eq {x y : Except Err α} (h : x = y) (hx : isSoft x) : isSoft y :=
  h ▸ hx

theorem removeStone_soft (b : Board) (c : Coordinate) : isSoft (b.removeStone c) := by
  unfold Board.removeStone
  dsimp only
  repeat' split
  all_goals trivial

theorem placeStone_soft (b : Board) (c : Coordinate) (s : String) :
    isSoft (b.placeStone c s) := by
  unfold Board.placeStone
  dsimp only
  repeat' split
  all_goals trivial

theorem setCursor_soft (g : Game) (c : Coordinate) : isSoft (g.setCursor c) := by
  unfold Game.setCursor
  split <;> trivial

theorem isSoft_exceptStep {x : Except Err α} {f : α → Except Err β}
    (hx : isSoft x) (hf : ∀ a, isSoft (f a)) : isSoft (exceptStep x f) := by
  cases x with
  | error e => simpa [exceptStep] using hx
  | ok a => simpa [exceptStep] using hf a

theorem stoneStormApply_soft (skill : Skill) (g : Game) (p : Player) (rng : Rng) :
    isSoft (stoneStormApply skill g p rng) := by
  unfold stoneStormApply
  dsimp only
  split
  · trivial
  · refine isSoft_exceptStep (removeStone_soft _ _) ?_
    intro br
    refine isSoft_exceptStep ?_ (fun g3 => trivial)
    split
    · exact setCursor_soft _ _
    · trivial

theorem seizeAndMoveApply_soft (skill : Skill) (g : Game) (p : Player) (rng : Rng) :
    isSoft (seizeAndMoveApply skill g p rng) := by
  unfold seizeAndMoveApply
  dsimp only
  split
  · trivial
  · split
    · trivial
    · refine isSoft_exceptStep (removeStone_soft _ _) ?_
      intro br
      exact isSoft_exceptStep (placeStone_soft _ _ _) (fun bp => trivial)

theorem skillApply_soft (skill : Skill) (g : Game) (p : Player) (rng : Rng)
    (hkind : skill.kind ≠ SkillKind.base) : isSoft (skillApply skill g p rng) := by
  unfold skillApply
  split
  · exact stoneStormApply_soft _ _ _ _
  · trivial
  · trivial
  · exact seizeAndMoveApply_soft _ _ _ _
  · rename_i heq
    exact absurd heq hkind

theorem useSkill_soft (g : Game) (name : String)
    (h : ∀ skill, g.skillRegistry.lookup name = some skill →
      ((g.cooldownsFor g.currentPlayer).lookup skill.name).isSome ∧
        skill.kind ≠ SkillKind.base) :
    isSoft (g.useSkill name) := by
  unfold Game.useSkill
  split
  · trivial
  · split
    · trivial
    · rename_i skill hreg
      obtain ⟨hcd, hkind⟩ := h skill hreg
      split
      · rename_i hnone
        rw [hnone] at hcd
        cases hcd
      · split
        · trivial
        · exact isSoft_exceptStep
            (skillApply_soft skill g g.currentPlayer g.rng hkind) (fun gr => trivial)

theorem setCursor_ok_fields {g sg : Game} {c : Coordinate} (h : g.setCursor c = .ok sg) :
    sg = { g with cursor := c } := by
  unfold Game.setCursor at h
  split at h
  · cases h; rfl
  · cases h

theorem cooldownsFor_congr {g1 g2 : Game} (hB : g1.cooldownsBlack = g2.cooldownsBlack)
    (hW : g1.cooldownsWhite = g2.cooldownsWhite) (p : Player) :
    g1.cooldownsFor p = g2.cooldownsFor p := by
  cases p <;> simp [Game.cooldownsFor, hB, hW]

theorem simulateSkillEffect_soft (live : Game) (cds : CooldownState)
    (skillName : String) (rngOpt : Option Rng) (target : Option Coordinate)
    (hreg : (live.skillRegistry.lookup skillName).isSome)
    (h : ∀ skill, live.skillRegistry.lookup skillName = some skill →
      ((live.cooldownsFor live.currentPlayer).lookup skill.name).isSome ∧
        skill.kind ≠ SkillKind.base) :
    isSoft (simulateSkillEffect live cds skillName rngOpt target).2 := by
  have huse : ∀ sg : Game, sg.skillRegistry = live.skillRegistry →
      sg.currentPlayer = live.currentPlayer →
      sg.cooldownsBlack = live.cooldownsBlack →
      sg.cooldownsWhite = live.cooldownsWhite →
      isSoft (sg.useSkill skillName) := by
    intro sg hr hc hb hw
    refine useSkill_soft sg skillName ?_
    intro skill hsk
    rw [hr] at hsk
    obtain ⟨h1, h2⟩ := h skill hsk
    refine ⟨?_, h2⟩
    have hcdf : sg.cooldownsFor sg.currentPlayer =
        live.cooldownsFor live.currentPlayer := by
      rw [hc]
      exact cooldownsFor_congr hb hw live.currentPlayer
    rw [hcdf]
    exact h1
  unfold simulateSkillEffect
  split
  · rename_i hnone
    rw [Option.isNone_iff_eq_none] at hnone
    rw [hnone] at hreg
    cases hreg
  · dsimp only
    cases target with
    | none =>
        dsimp only
        split
        · rename_i e heq
          have h2 : isSoft ((simClone live rngOpt).useSkill skillName) :=
            huse (simClone live rngOpt) rfl rfl rfl rfl
          rw [heq] at h2
          exact h2
        · trivial
    | some t =>
        dsimp only
        split
        · rename_i e heq
          have h2 : isSoft ((simClone live rngOpt).setCursor t) :=
            setCursor_soft (simClone live rngOpt) t
          rw [heq] at h2
          exact h2
        · rename_i sg hsg
          have hfields := setCursor_ok_fields hsg
          subst hfields
          split
          · rename_i e heq
            have h2 : isSoft
                (({ simClone live rngOpt with cursor := t } : Game).useSkill skillName) :=
              huse _ rfl rfl rfl rfl
            rw [heq] at h2
            exact h2
          · trivial

theorem lookup_mem {k : String} {v : Skill} :
    ∀ {l : List (String × Skill)}, l.lookup k = some v → (k, v) ∈ l := by
  intro l
  induction l with
  | nil => intro h; cases h
  | cons e rest ih =>
      intro h
      obtain ⟨k0, v0⟩ := e
      rw [List.lookup] at h
      by_cases hk : k == k0
      · simp only [hk] at h
        obtain rfl : v0 = v := Option.some_inj.mp h
        have : k = k0 := eq_of_beq hk
        subst this
        exact List.mem_cons_self _ _
      · rw [Bool.not_eq_true] at hk
        simp only [hk] at h
        exact List.mem_cons_of_mem _ (ih h)

theorem keys_lookup_isSome {k : String} :
    ∀ {l : List (String × Skill)}, k ∈ l.map (fun e => e.1) →
      (l.lookup k).isSome := by
  intro l
  induction l with
  | nil => intro h; cases h
  | cons e rest ih =>
      intro h
      obtain ⟨k0, v0⟩ := e
      rw [List.lookup]
      by_cases hk : k == k0
      · simp only [hk]
        rfl
      · rw [Bool.not_eq_true] at hk
        simp only [hk]
        refine ih ?_
        simp only [List.map_cons, List.mem_cons] at h
        rcases h with h1 | h1
        · exact absurd (beq_iff_eq.mpr h1) (by simp [hk])
        · exact h1

/-- The registry well-formedness gives the `useSkill` precondition for any
key that the registry resolves. -/
theorem registryWF_precondition {game : Game} (hwf : game.registryWF) (n : String) :
    ∀ skill, game.skillRegistry.lookup n = some skill →
      ((game.cooldownsFor game.currentPlayer).lookup skill.name).isSome ∧
        skill.kind ≠ SkillKind.base := by
  intro skill hsk
  obtain ⟨hk, hb, hw⟩ := hwf _ (lookup_mem hsk)
  refine ⟨?_, hk⟩
  cases game.currentPlayer
  · exact hb
  · exact hw

theorem stormScored_ok (game : Game) (cds : CooldownState) (rng : Rng)
    (hsoft : ∀ target, isSoft
      (simulateSkillEffect game cds STONE_STORM (some rng) (some target)).2) :
    ∀ targets, ∃ l, stormScored game cds rng targets = .ok l := by
  intro targets
  induction targets with
  | nil => exact ⟨[], rfl⟩
  | cons t rest ih =>
      obtain ⟨l, hl⟩ := ih
      have hs := hsoft t
      unfold stormScored
      rcases hsim : simulateSkillEffect game cds STONE_STORM (some rng) (some t)
        with ⟨lv, res⟩
      rw [hsim] at hs
      cases res with
      | error e =>
          cases e with
          | valueError m => exact ⟨l, hl⟩
          | keyError m => cases hs
          | notImplementedError => cases hs
      | ok pr =>
          obtain ⟨simGame, simState⟩ := pr
          dsimp only
          rw [hl]
          exact ⟨_, rfl⟩

theorem stoneStormSimulations_ok (game : Game) (cds : CooldownState) (rng : Rng)
    (hsoft : ∀ target, isSoft
      (simulateSkillEffect game cds STONE_STORM (some rng) (some target)).2) :
    ∃ l, stoneStormSimulations game cds rng = .ok l := by
  unfold stoneStormSimulations
  dsimp only
  split
  · exact ⟨[], rfl⟩
  · obtain ⟨l, hl⟩ := stormScored_ok game cds rng hsoft (stormOrderedTargets game)
    rw [hl]
    exact ⟨_, rfl⟩

theorem rootSkillSimAux_ok (game : Game) (cds : CooldownState) (rng : Rng)
    (hwf : game.registryWF) :
    ∀ names, (∀ n ∈ names, (game.skillRegistry.lookup n).isSome) →
      ∃ l, rootSkillSimAux game cds rng names = .ok l := by
  intro names
  induction names with
  | nil => intro _; exact ⟨[], rfl⟩
  | cons n rest ih =>
      intro hmem
      have hn := hmem n (List.mem_cons_self _ _)
      obtain ⟨l, hl⟩ := ih (fun m hm => hmem m (List.mem_cons_of_mem _ hm))
      unfold rootSkillSimAux
      split_ifs with h1 h2
      · exact ⟨l, hl⟩
      · subst h2
        obtain ⟨ls, hls⟩ := stoneStormSimulations_ok game cds rng (fun target =>
          simulateSkillEffect_soft game cds STONE_STORM (some rng) (some target)
            hn (registryWF_precondition hwf STONE_STORM))
        rw [hls, hl]
        exact ⟨_, rfl⟩
      · have hs := simulateSkillEffect_soft game cds n (some rng) none
          hn (registryWF_precondition hwf n)
        rcases hsim : simulateSkillEffect game cds n (some rng) none with ⟨lv, res⟩
        rw [hsim] at hs
        cases res with
        | error e =>
            cases e with
            | valueError m => exact ⟨l, hl⟩
            | keyError m => cases hs
            | notImplementedError => cases hs
        | ok pr =>
            obtain ⟨simGame, simState⟩ := pr
            dsimp only
            rw [hl]
            exact ⟨_, rfl⟩

theorem rootSkillSimulations_ok (game : Game) (cds : CooldownState)
    (rngOpt : Option Rng) (hwf : game.registryWF) :
    ∃ l, rootSkillSimulations game cds rngOpt = .ok l := by
  unfold rootSkillSimulations
  refine rootSkillSimAux_ok game cds _ hwf _ ?_
  intro n hn
  unfold readySkillNames at hn
  exact keys_lookup_isSome (List.mem_of_mem_filter hn)

theorem applyMove_ok (grid : Grid) (c : Coordinate) (stone : String)
    (h : cellAt grid c.1 c.2 = EMPTY_CELL) : ∃ r, applyMove grid c stone = .ok r := by
  unfold applyMove
  rw [if_neg (fun hne => hne h)]
  exact ⟨_, rfl⟩

theorem seedMoves_ok (rootPlayer : Player) (cds : CooldownState) (grid : Grid) :
    ∀ (moves : List Coordinate) (acc : List SearchNode × BestAcc),
      (∀ m ∈ moves, cellAt grid m.1 m.2 = EMPTY_CELL) →
      ∃ r, seedMoves rootPlayer cds grid moves acc = .ok r := by
  intro moves
  induction moves with
  | nil => intro acc _; exact ⟨acc, rfl⟩
  | cons m rest ih =>
      intro acc hmem
      rcases acc with ⟨heap, best⟩
      obtain ⟨res, hres⟩ := applyMove_ok grid m rootPlayer.stone
        (hmem m (List.mem_cons_self _ _))
      rcases res with ⟨nextGrid, win⟩
      unfold seedMoves
      rw [hres]
      exact ih _ (fun x hx => hmem x (List.mem_cons_of_mem _ hx))

theorem expandChildren_ok (rootPlayer : Player) (node : SearchNode) :
    ∀ (moves : List Coordinate) (heap : List SearchNode),
      (∀ m ∈ moves, cellAt node.grid m.1 m.2 = EMPTY_CELL) →
      ∃ h2, expandChildren rootPlayer node moves heap = .ok h2 := by
  intro moves
  induction moves with
  | nil => intro heap _; exact ⟨heap, rfl⟩
  | cons m rest ih =>
      intro heap hmem
      obtain ⟨res, hres⟩ := applyMove_ok node.grid m node.playerToMove.stone
        (hmem m (List.mem_cons_self _ _))
      rcases res with ⟨nextGrid, win⟩
      unfold expandChildren
      dsimp only
      rw [hres]
      exact ih _ (fun x hx => hmem x (List.mem_cons_of_mem _ hx))

theorem searchLoop_ok (depth : Nat) (rootPlayer : Player) :
    ∀ (fuel : Nat) (heap : List SearchNode) (acc : BestAcc),
      ∃ r, searchLoop depth rootPlayer fuel heap acc = .ok r := by
  intro fuel
  induction fuel with
  | zero => intro heap acc; exact ⟨acc, rfl⟩
  | succ rem ih =>
      intro heap acc
      unfold searchLoop
      rcases hpop : popMin heap with _ | ⟨node, rest⟩
      · exact ⟨acc, rfl⟩
      · dsimp only
        split
        · exact ih _ _
        · split
          · exact ih _ _
          · obtain ⟨h2, hh⟩ := expandChildren_ok rootPlayer node
              (candidateMoves node.grid) rest (candidateMoves_cell_empty node.grid)
            rw [hh]
            exact ih _ _

/-- C2: `choose_action` raises an error exactly when the root has neither
a candidate placement nor an eligible skill simulation, and whenever at
least one root candidate exists it returns an action and raises nothing.
`registryWF` is the registry/cooldown consistency established by the
`Game` constructor; without it, exotic hand-built registries could raise
`KeyError`/`NotImplementedError` that the search does not catch. -/
theorem chooseAction_error_iff (game : Game) (depth : Nat) (rngOpt : Option Rng)
    (hwf : game.registryWF) :
    ∃ skillChildren,
      rootSkillSimulations game (CooldownState.fromGame game (skillOrderOf game))
        (some (resolveRng game rngOpt)) = .ok skillChildren ∧
      ((∃ e, chooseAction game depth rngOpt = .error e) ↔
        candidateMoves (gridFromBoard game) = [] ∧ skillChildren = []) ∧
      (candidateMoves (gridFromBoard game) ≠ [] ∨ skillChildren ≠ [] →
        ∃ a, chooseAction game depth rngOpt = .ok a) := by
  obtain ⟨sc, hsc⟩ := rootSkillSimulations_ok game
    (CooldownState.fromGame game (skillOrderOf game))
    (some (resolveRng game rngOpt)) hwf
  have hok : candidateMoves (gridFromBoard game) ≠ [] ∨ sc ≠ [] →
      ∃ a, chooseAction game depth rngOpt = .ok a := by
    intro hne
    unfold chooseAction
    dsimp only
    rw [hsc]
    dsimp only
    have hguard : ((candidateMoves (gridFromBoard game)).isEmpty && sc.isEmpty) = false := by
      rcases hne with h | h
      · have : (candidateMoves (gridFromBoard game)).isEmpty = false := by
          rw [List.isEmpty_eq_false]
          exact h
        rw [this, Bool.false_and]
      · have : sc.isEmpty = false := by
          rw [List.isEmpty_eq_false]
          exact h
        rw [this, Bool.and_false]
    rw [hguard, if_neg (by simp)]
    obtain ⟨seeded, hseed⟩ := seedMoves_ok game.currentPlayer
      (CooldownState.fromGame game (skillOrderOf game)) (gridFromBoard game)
      (candidateMoves (gridFromBoard game))
      ([], { bestScore := none, bestActions := [] })
      (candidateMoves_cell_empty (gridFromBoard game))
    rw [hseed]
    dsimp only
    obtain ⟨best, hloop⟩ := searchLoop_ok (if depth < 1 then 1 else depth)
      game.currentPlayer MAX_EXPANSIONS
      (seedSkillChildren game.currentPlayer sc seeded).1
      (seedSkillChildren game.currentPlayer sc seeded).2
    rw [hloop]
    dsimp only
    by_cases hb : best.bestActions.isEmpty
    · rw [if_pos hb]
      by_cases hc : (candidateMoves (gridFromBoard game)).isEmpty
      · have hscne : sc ≠ [] := by
          rcases hne with h | h
          · exact absurd (List.isEmpty_iff.mp hc) h
          · exact h
        rw [if_neg (fun hcon => hcon hc),
          if_pos (by rw [List.isEmpty_eq_false.mpr hscne]; simp)]
        exact ⟨_, rfl⟩
      · rw [if_pos hc]
        exact ⟨_, rfl⟩
    · rw [if_neg hb]
      exact ⟨_, rfl⟩
  refine ⟨sc, hsc, ⟨?_, ?_⟩, hok⟩
  · rintro ⟨e, he⟩
    by_cases hcand : candidateMoves (gridFromBoard game) = []
    · by_cases hskills : sc = []
      · exact ⟨hcand, hskills⟩
      · obtain ⟨a, ha⟩ := hok (Or.inr hskills)
        rw [ha] at he
        cases he
    · obtain ⟨a, ha⟩ := hok (Or.inl hcand)
      rw [ha] at he
      cases he
  · rintro ⟨h1, h2⟩
    refine ⟨.valueError "No legal moves or skills available", ?_⟩
    unfold chooseAction
    dsimp only
    rw [hsc]
    dsimp only
    have hguard : ((candidateMoves (gridFromBoard game)).isEmpty && sc.isEmpty) = true := by
      rw [h1, h2]
      rfl
    rw [hguard, if_pos rfl]

/-- Witness for C2: the 1×1 game has a placement candidate, so
`choose_action` succeeds. -/
theorem chooseAction_error_iff_witness :
    ∃ a, chooseAction tinyGame 1 none = .ok a := by
  obtain ⟨sc, hsc, hiff, hne⟩ := chooseAction_error_iff tinyGame 1 none (by decide)
  exact hne (Or.inl (by decide))

/-! ## Claim C3: which skill actions the search can consider and return -/

theorem stoneStormSimulations_actions {game : Game} {cds : CooldownState} {rng : Rng}
    {l : List (SearchAction × Game × CooldownState)}
    (h : stoneStormSimulations game cds rng = .ok l) :
    (∀ x ∈ l, x.1.skill = some STONE_STORM) ∧
    (game.occupiedByPlayer game.currentPlayer.opponent = [] → l = []) := by
  unfold stoneStormSimulations at h
  dsimp only at h
  split at h
  · cases h
    exact ⟨fun x hx => absurd hx (List.not_mem_nil x), fun _ => rfl⟩
  · rename_i hne
    split at h
    · cases h
    · cases h
      constructor
      · intro x hx
        obtain ⟨item, _, hxeq⟩ := List.mem_map.mp hx
        rw [← hxeq]
        rfl
      · intro hocc
        rw [hocc] at hne
        exact absurd rfl hne

theorem rootSkillSimAux_actions (game : Game) (cds : CooldownState) (rng : Rng) :
    ∀ (names : List String) (l : List (SearchAction × Game × CooldownState)),
      rootSkillSimAux game cds rng names = .ok l →
      ∀ x ∈ l, ∃ n, x.1.skill = some n ∧ n ∈ names ∧ n ≠ MIGHTY_CLEARING ∧
        (n = STONE_STORM → game.occupiedByPlayer game.currentPlayer.opponent ≠ []) := by
  intro names
  induction names with
  | nil =>
      intro l h x hx
      cases h
      cases hx
  | cons n rest ih =>
      intro l h x hx
      unfold rootSkillSimAux at h
      split_ifs at h with h1 h2
      · obtain ⟨m, hm1, hm2, hm3, hm4⟩ := ih l h x hx
        exact ⟨m, hm1, List.mem_cons_of_mem _ hm2, hm3, hm4⟩
      · subst h2
        rcases hstorm : stoneStormSimulations game cds rng with e | storm
        · rw [hstorm] at h
          cases h
        · rw [hstorm] at h
          rcases hrest : rootSkillSimAux game cds rng rest with e | lrest
          · rw [hrest] at h
            cases h
          · rw [hrest] at h
            simp only [Except.map] at h
            obtain rfl : storm ++ lrest = l := by cases h; rfl
            rcases List.mem_append.mp hx with hx1 | hx2
            · obtain ⟨hskill, hempty⟩ := stoneStormSimulations_actions hstorm
              refine ⟨STONE_STORM, hskill x hx1, List.mem_cons_self _ _, by decide, ?_⟩
              intro _ hocc
              rw [hempty hocc] at hx1
              cases hx1
            · obtain ⟨m, hm1, hm2, hm3, hm4⟩ := ih lrest hrest x hx2
              exact ⟨m, hm1, List.mem_cons_of_mem _ hm2, hm3, hm4⟩
      · rcases hsim : simulateSkillEffect game cds n (some rng) none with ⟨lv, res⟩
        rw [hsim] at h
        cases res with
        | error e =>
            cases e with
            | valueError m =>
                obtain ⟨m2, hm1, hm2, hm3, hm4⟩ := ih l h x hx
                exact ⟨m2, hm1, List.mem_cons_of_mem _ hm2, hm3, hm4⟩
            | keyError m => cases h
            | notImplementedError => cases h
        | ok pr =>
            rcases pr with ⟨simGame, simState⟩
            dsimp only at h
            rcases hrest : rootSkillSimAux game cds rng rest with e2 | lrest
            · rw [hrest] at h
              cases h
            · rw [hrest] at h
              simp only [Except.map] at h
              obtain rfl :
                  (SearchAction.activateSkill n (seizeSourceTarget n simGame),
                    simGame, simState) :: lrest = l := by cases h; rfl
              rcases List.mem_cons.mp hx with hx1 | hx2
              · subst hx1
                exact ⟨n, rfl, List.mem_cons_self _ _, h1,
                  fun heq => absurd heq h2⟩
              · obtain ⟨m, hm1, hm2, hm3, hm4⟩ := ih lrest hrest x hx2
                exact ⟨m, hm1, List.mem_cons_of_mem _ hm2, hm3, hm4⟩

theorem readySkillNames_cooldown {game : Game} {n : String}
    (h : n ∈ readySkillNames game) :
    assocGetD (game.cooldownsFor game.currentPlayer) n 0 = 0 := by
  unfold readySkillNames at h
  have := List.of_mem_filter h
  exact of_decide_eq_true this

/-- Soundness of the root simulation list: every action in it names a
ready, non-Mighty-Clearing skill, with Stone Storm only offered when the
opponent has a stone on the board. -/
theorem rootSkillSimulations_actions {game : Game} {cds : CooldownState}
    {rngOpt : Option Rng} {l : List (SearchAction × Game × CooldownState)}
    (h : rootSkillSimulations game cds rngOpt = .ok l) :
    ∀ x ∈ l, ∃ n, x.1.skill = some n ∧
      assocGetD (game.cooldownsFor game.currentPlayer) n 0 = 0 ∧
      n ≠ MIGHTY_CLEARING ∧
      (n = STONE_STORM → game.occupiedByPlayer game.currentPlayer.opponent ≠ []) := by
  intro x hx
  unfold rootSkillSimulations at h
  obtain ⟨n, hn1, hn2, hn3, hn4⟩ := rootSkillSimAux_actions game cds _ _ l h x hx
  exact ⟨n, hn1, readySkillNames_cooldown hn2, hn3, hn4⟩

/-! ### Provenance: every action `choose_action` returns is a root action -/

theorem recordCandidate_allowed {cands : List Coordinate}
    {sc : List (SearchAction × Game × CooldownState)} {acc : BestAcc} {s : ℚ}
    {act : SearchAction}
    (hacc : ∀ b ∈ acc.bestActions, allowedAction cands sc b)
    (hact : allowedAction cands sc act) :
    ∀ b ∈ (recordCandidate acc s act).bestActions, allowedAction cands sc b := by
  intro b hb
  unfold recordCandidate at hb
  split at hb
  · rw [List.mem_singleton.mp hb]
    exact hact
  · split_ifs at hb
    · rw [List.mem_singleton.mp hb]
      exact hact
    · rcases List.mem_append.mp hb with h1 | h1
      · exact hacc b h1
      · rw [List.mem_singleton.mp h1]
        exact hact
    · exact hacc b hb

theorem popMin_mem : ∀ {heap : List SearchNode} {node : SearchNode}
    {rest : List SearchNode}, popMin heap = some (node, rest) →
    node ∈ heap ∧ ∀ x ∈ rest, x ∈ heap := by
  intro heap
  induction heap with
  | nil => intro node rest h; cases h
  | cons x xs ih =>
      intro node rest h
      unfold popMin at h
      rcases hpop : popMin xs with _ | ⟨m, r⟩
      · rw [hpop] at h
        dsimp only at h
        injection h with h2
        obtain ⟨rfl, rfl⟩ := Prod.mk.inj h2
        exact ⟨List.mem_cons_self _ _, fun y hy => absurd hy (List.not_mem_nil y)⟩
      · rw [hpop] at h
        dsimp only at h
        by_cases hlt : nodeLt m x
        · rw [if_pos hlt] at h
          injection h with h2
          obtain ⟨rfl, rfl⟩ := Prod.mk.inj h2
          obtain ⟨hm, hr⟩ := ih hpop
          refine ⟨List.mem_cons_of_mem _ hm, ?_⟩
          intro y hy
          rcases List.mem_cons.mp hy with rfl | hy2
          · exact List.mem_cons_self _ _
          · exact List.mem_cons_of_mem _ (hr y hy2)
        · rw [if_neg hlt] at h
          injection h with h2
          obtain ⟨rfl, rfl⟩ := Prod.mk.inj h2
          exact ⟨List.mem_cons_self _ _, fun y hy => List.mem_cons_of_mem _ hy⟩

theorem expandChildren_allowed {cands : List Coordinate}
    {sc : List (SearchAction × Game × CooldownState)} (rootPlayer : Player)
    (node : SearchNode) (hnode : allowedAction cands sc node.firstAction) :
    ∀ (moves : List Coordinate) (heap h2 : List SearchNode),
      (∀ nd ∈ heap, allowedAction cands sc nd.firstAction) →
      expandChildren rootPlayer node moves heap = .ok h2 →
      ∀ nd ∈ h2, allowedAction cands sc nd.firstAction := by
  intro moves
  induction moves with
  | nil =>
      intro heap h2 hheap h
      cases h
      exact hheap
  | cons m rest ih =>
      intro heap h2 hheap h
      unfold expandChildren at h
      dsimp only at h
      rcases happ : applyMove node.grid m node.playerToMove.stone with e | pr
      · rw [happ] at h
        cases h
      · rcases pr with ⟨ng, win⟩
        rw [happ] at h
        refine ih _ _ ?_ h
        intro nd hnd
        rcases List.mem_append.mp hnd with h1 | h1
        · exact hheap nd h1
        · rw [List.mem_singleton.mp h1]
          exact hnode

theorem searchLoop_allowed {cands : List Coordinate}
    {sc : List (SearchAction × Game × CooldownState)} (depth : Nat)
    (rootPlayer : Player) :
    ∀ (fuel : Nat) (heap : List SearchNode) (acc best : BestAcc),
      (∀ nd ∈ heap, allowedAction cands sc nd.firstAction) →
      (∀ b ∈ acc.bestActions, allowedAction cands sc b) →
      searchLoop depth rootPlayer fuel heap acc = .ok best →
      ∀ b ∈ best.bestActions, allowedAction cands sc b := by
  intro fuel
  induction fuel with
  | zero =>
      intro heap acc best hheap hacc h
      cases h
      exact hacc
  | succ rem ih =>
      intro heap acc best hheap hacc h
      unfold searchLoop at h
      rcases hpop : popMin heap with _ | ⟨node, rest⟩
      · rw [hpop] at h
        cases h
        exact hacc
      · rw [hpop] at h
        dsimp only at h
        obtain ⟨hnodeMem, hrestMem⟩ := popMin_mem hpop
        have hnode := hheap node hnodeMem
        have hrest : ∀ nd ∈ rest, allowedAction cands sc nd.firstAction :=
          fun nd hnd => hheap nd (hrestMem nd hnd)
        split at h
        · exact ih rest _ best hrest (recordCandidate_allowed hacc hnode) h
        · split at h
          · exact ih rest _ best hrest (recordCandidate_allowed hacc hnode) h
          · rcases hexp : expandChildren rootPlayer node (candidateMoves node.grid) rest
              with e | newHeap
            · rw [hexp] at h
              cases h
            · rw [hexp] at h
              exact ih newHeap acc best
                (expandChildren_allowed rootPlayer node hnode _ _ _ hrest hexp) hacc h

theorem seedMoves_allowed (cands : List Coordinate)
    (sc : List (SearchAction × Game × CooldownState)) (rootPlayer : Player)
    (cds : CooldownState) (grid : Grid) :
    ∀ (moves : List Coordinate) (acc r : List SearchNode × BestAcc),
      (∀ m ∈ moves, m ∈ cands) →
      (∀ nd ∈ acc.1, allowedAction cands sc nd.firstAction) →
      (∀ b ∈ acc.2.bestActions, allowedAction cands sc b) →
      seedMoves rootPlayer cds grid moves acc = .ok r →
      (∀ nd ∈ r.1, allowedAction cands sc nd.firstAction) ∧
        (∀ b ∈ r.2.bestActions, allowedAction cands sc b) := by
  intro moves
  induction moves with
  | nil =>
      intro acc r _ hheap hbest h
      cases h
      exact ⟨hheap, hbest⟩
  | cons m rest ih =>
      intro acc r hmem hheap hbest h
      rcases acc with ⟨heap, best⟩
      unfold seedMoves at h
      rcases happ : applyMove grid m rootPlayer.stone with e | pr
      · rw [happ] at h
        cases h
      · rcases pr with ⟨ng, win⟩
        rw [happ] at h
        dsimp only at h
        have hplace : allowedAction cands sc (SearchAction.place m) :=
          Or.inl ⟨m, hmem m (List.mem_cons_self _ _), rfl⟩
        refine ih _ r (fun x hx => hmem x (List.mem_cons_of_mem _ hx)) ?_ ?_ h
        · intro nd hnd
          rcases List.mem_append.mp hnd with h1 | h1
          · exact hheap nd h1
          · rw [List.mem_singleton.mp h1]
            exact hplace
        · dsimp only
          split
          · exact recordCandidate_allowed hbest hplace
          · exact hbest

theorem seedSkillChildren_allowed (cands : List Coordinate)
    (sc : List (SearchAction × Game × CooldownState)) (rootPlayer : Player) :
    ∀ (children : List (SearchAction × Game × CooldownState))
      (acc : List SearchNode × BestAcc),
      (∀ x ∈ children, x ∈ sc) →
      (∀ nd ∈ acc.1, allowedAction cands sc nd.firstAction) →
      (∀ b ∈ acc.2.bestActions, allowedAction cands sc b) →
      (∀ nd ∈ (seedSkillChildren rootPlayer children acc).1,
          allowedAction cands sc nd.firstAction) ∧
        (∀ b ∈ (seedSkillChildren rootPlayer children acc).2.bestActions,
          allowedAction cands sc b) := by
  intro children
  induction children with
  | nil =>
      intro acc _ hheap hbest
      exact ⟨hheap, hbest⟩
  | cons child rest ih =>
      intro acc hmem hheap hbest
      rcases acc with ⟨heap, best⟩
      rcases child with ⟨action, simGame, simCooldowns⟩
      unfold seedSkillChildren
      dsimp only
      have hact : allowedAction cands sc action :=
        Or.inr ⟨(action, simGame, simCooldowns),
          hmem _ (List.mem_cons_self _ _), rfl⟩
      refine ih _ (fun x hx => hmem x (List.mem_cons_of_mem _ hx)) ?_ ?_
      · intro nd hnd
        rcases List.mem_append.mp hnd with h1 | h1
        · exact hheap nd h1
        · rw [List.mem_singleton.mp h1]
          exact hact
      · split
        · exact recordCandidate_allowed hbest hact
        · exact hbest

theorem chooseAction_result_allowed (game : Game) (depth : Nat) (rngOpt : Option Rng)
    (a : SearchAction) (sc : List (SearchAction × Game × CooldownState))
    (hsc : rootSkillSimulations game (CooldownState.fromGame game (skillOrderOf game))
      (some (resolveRng game rngOpt)) = .ok sc)
    (hok : chooseAction game depth rngOpt = .ok a) :
    allowedAction (candidateMoves (gridFromBoard game)) sc a := by
  unfold chooseAction at hok
  dsimp only at hok
  rw [hsc] at hok
  dsimp only at hok
  split at hok
  · cases hok
  · rcases hseed : seedMoves game.currentPlayer
        (CooldownState.fromGame game (skillOrderOf game)) (gridFromBoard game)
        (candidateMoves (gridFromBoard game))
        ([], { bestScore := none, bestActions := [] }) with e | seeded
    · rw [hseed] at hok
      cases hok
    · rw [hseed] at hok
      dsimp only at hok
      have hseedInv := seedMoves_allowed (candidateMoves (gridFromBoard game)) sc
        game.currentPlayer
        (CooldownState.fromGame game (skillOrderOf game)) (gridFromBoard game)
        (candidateMoves (gridFromBoard game))
        ([], { bestScore := none, bestActions := [] }) seeded
        (fun m hm => hm)
        (fun nd hnd => absurd hnd (List.not_mem_nil nd))
        (fun b hb => absurd hb (List.not_mem_nil b))
        hseed
      have hskillInv := seedSkillChildren_allowed (candidateMoves (gridFromBoard game))
        sc game.currentPlayer sc seeded
        (fun x hx => hx) hseedInv.1 hseedInv.2
      rcases hloop : searchLoop (if depth < 1 then 1 else depth) game.currentPlayer
          MAX_EXPANSIONS (seedSkillChildren game.currentPlayer sc seeded).1
          (seedSkillChildren game.currentPlayer sc seeded).2 with e | best
      · rw [hloop] at hok
        cases hok
      · rw [hloop] at hok
        dsimp only at hok
        have hbestInv := searchLoop_allowed (if depth < 1 then 1 else depth)
          game.currentPlayer MAX_EXPANSIONS _ _ best hskillInv.1 hskillInv.2 hloop
        by_cases hb : best.bestActions.isEmpty = true
        · rw [if_pos hb] at hok
          by_cases hcE : (candidateMoves (gridFromBoard game)).isEmpty = true
          · rw [if_neg (fun hcon => hcon hcE)] at hok
            by_cases hsE : sc.isEmpty = true
            · rw [if_neg (fun hcon => hcon hsE)] at hok
              cases hok
            · rw [if_pos hsE] at hok
              injection hok with h3
              rw [← h3]
              have hnil : sc.map (fun child => child.1) ≠ [] := fun hnil => hsE (by
                rw [List.map_eq_nil_iff] at hnil
                rw [hnil]
                rfl)
              obtain ⟨x, hx, hxeq⟩ :=
                List.mem_map.mp (Rng.choiceD_mem _ _ defaultAction hnil)
              exact Or.inr ⟨x, hx, hxeq⟩
          · rw [if_pos hcE] at hok
            injection hok with h3
            rw [← h3]
            have hcne : candidateMoves (gridFromBoard game) ≠ [] :=
              fun hnil => hcE (by rw [hnil]; rfl)
            exact Or.inl ⟨_, Rng.choiceD_mem _ _ _ hcne, rfl⟩
        · rw [if_neg hb] at hok
          injection hok with h3
          rw [← h3]
          exact hbestInv _ (Rng.choiceD_mem _ _ defaultAction
            (fun hnil => hb (by rw [hnil]; rfl)))

/-- C3: every skill action `choose_action` can return — hence every root
skill candidate that survives to selection, including through the
degenerate random fallback — names a skill whose remaining cooldown for
the side to move is 0 (read with `dict.get(name, 0)` as the source does),
is never the Mighty Clearing board-wipe, and is Stone Storm only when the
opponent has at least one stone on the board. -/
theorem chooseAction_skill_constraints (game : Game) (depth : Nat)
    (rngOpt : Option Rng) (a : SearchAction) (name : String)
    (hok : chooseAction game depth rngOpt = .ok a)
    (hskill : a.skill = some name) :
    assocGetD (game.cooldownsFor game.currentPlayer) name 0 = 0 ∧
    name ≠ MIGHTY_CLEARING ∧
    (name = STONE_STORM → game.occupiedByPlayer game.currentPlayer.opponent ≠ []) := by
  rcases hsc : rootSkillSimulations game (CooldownState.fromGame game (skillOrderOf game))
      (some (resolveRng game rngOpt)) with e | sc
  · exfalso
    unfold chooseAction at hok
    dsimp only at hok
    rw [hsc] at hok
    cases hok
  · have hallow := chooseAction_result_allowed game depth rngOpt a sc hsc hok
    rcases hallow with ⟨m, hm, rfl⟩ | ⟨x, hx, hxa⟩
    · simp [SearchAction.place] at hskill
    · obtain ⟨n, hn1, hn2, hn3, hn4⟩ := rootSkillSimulations_actions hsc x hx
      rw [hxa, hskill] at hn1
      obtain rfl : name = n := Option.some_inj.mp hn1
      exact ⟨hn2, hn3, hn4⟩

/-- Witness for C3: on the full 2×2 board `choose_action` returns the
Still Waters activation, which satisfies all three constraints. -/
theorem chooseAction_skill_constraints_witness :
    assocGetD (skillOnlyGame.cooldownsFor skillOnlyGame.currentPlayer) STILL_WATERS 0 = 0 ∧
    STILL_WATERS ≠ MIGHTY_CLEARING ∧
    (STILL_WATERS = STONE_STORM →
      skillOnlyGame.occupiedByPlayer skillOnlyGame.currentPlayer.opponent ≠ []) :=
  chooseAction_skill_constraints skillOnlyGame 1 (some ⟨0⟩)
    (SearchAction.activateSkill STILL_WATERS none) STILL_WATERS rfl rfl

/-! ## Claim C1: the opening move

The opening-position computation is settled by evaluating the embedded
pipeline on the concrete initial state: the only placement candidate on
the empty board is the center, the sole ready skill is Still Waters
(every other skill starts on a positive cooldown), its simulation leaves
the grid empty (evaluation 0 against the center placement's 4), and the
final tie-break draws from the singleton best list, so the rng seed is
irrelevant. -/

/-- The grid snapshot of a fresh game: the empty 15×15 grid. -/
def emptyGrid15 : Grid := gridFromBoard (Game.new (Rng.mk 0))

/-- The root cooldown snapshot of a fresh game. -/
def rootCds15 : CooldownState :=
  CooldownState.fromGame (Game.new (Rng.mk 0)) (skillOrderOf (Game.new (Rng.mk 0)))

/-- The grid after black's opening placement at the center. -/
def centerGrid15 : Grid := setCell emptyGrid15 7 7 Player.black.stone

/-- The frontier node seeded for the center placement (evaluation 4: four
directions, each a lone stone with two open ends). -/
def centerNode : SearchNode :=
  { priority := 5, gCost := 1, grid := centerGrid15,
    playerToMove := Player.white, firstAction := SearchAction.place (7, 7),
    evaluation := 4, isTerminal := false,
    cooldownState := rootCds15.advanceAfterMove Player.black }

theorem newGame_resolveRng (rGame r : Rng) :
    resolveRng (Game.new rGame) (some r) = r := rfl

theorem newGame_grid (rGame : Rng) :
    gridFromBoard (Game.new rGame) = emptyGrid15 := rfl

theorem newGame_currentPlayer (rGame : Rng) :
    (Game.new rGame).currentPlayer = Player.black := rfl

theorem newGame_rootCds (rGame : Rng) :
    CooldownState.fromGame (Game.new rGame) (skillOrderOf (Game.new rGame)) =
      rootCds15 := rfl

set_option maxRecDepth 200000 in
theorem candidateMoves_empty15 : candidateMoves emptyGrid15 = [(7, 7)] := rfl

set_option maxRecDepth 200000 in
theorem staticEvaluation_empty15 :
    staticEvaluation emptyGrid15 Player.black = 0 := by with_unfolding_all rfl

theorem priorityOf_still : priorityOf 1 0 Player.black Player.black = 1 := by
  with_unfolding_all rfl

set_option maxRecDepth 200000 in
theorem seedMoves_center :
    seedMoves Player.black rootCds15 emptyGrid15 [(7, 7)]
      ([], { bestScore := none, bestActions := [] }) =
    .ok ([centerNode], { bestScore := none, bestActions := [] }) := by
  with_unfolding_all rfl

set_option maxRecDepth 200000 in
/-- On a fresh game the root skill simulations produce exactly the Still
Waters activation; the simulated game keeps the empty grid, returns the
turn to black (the scheduled skip is consumed immediately) and is not
finished. -/
theorem rootSims_new (rGame r : Rng) :
    ∃ sg : Game,
      rootSkillSimulations (Game.new rGame) rootCds15 (some r) =
        .ok [(SearchAction.activateSkill STILL_WATERS none, sg,
              CooldownState.fromGame sg rootCds15.skillNames)] ∧
      gridFromBoard sg = emptyGrid15 ∧
      sg.currentPlayer = Player.black ∧
      sg.isFinished = false :=
  ⟨_, rfl, rfl, rfl, rfl⟩

set_option maxRecDepth 200000 in
/-- The depth-1 best-first loop on the two seeded root nodes settles on
the center placement (4 beats the skill's 0), whatever skill action and
cooldown snapshot the skill node carries. -/
theorem searchLoop_c1 (a : SearchAction) (c : CooldownState) :
    searchLoop 1 Player.black MAX_EXPANSIONS
      [centerNode,
       { priority := 1, gCost := 1, grid := emptyGrid15,
         playerToMove := Player.black, firstAction := a, evaluation := 0,
         isTerminal := false, cooldownState := c }]
      { bestScore := none, bestActions := [] } =
    .ok { bestScore := some 4, bestActions := [SearchAction.place (7, 7)] } := by
  with_unfolding_all rfl

set_option maxRecDepth 200000 in
/-- C1: on the default initial game (empty 15×15 board, default
cooldowns) at depth 1, `choose_action` returns the placement `(7, 7)` at
the center, for every rng seed (both the search rng argument and the
game's own rng are arbitrary).  The only placement candidate is the
center; the sole ready skill (Still Waters) records evaluation 0 against
the center placement's 4, so the final random tie-break draws from the
singleton list containing the center placement. -/
theorem chooseAction_default_center (r rGame : Rng) :
    chooseAction (Game.new rGame) 1 (some r) = .ok (SearchAction.place (7, 7)) := by
  obtain ⟨sg, hsim, hgrid2, hcp2, hfin2⟩ := rootSims_new rGame r
  unfold chooseAction
  dsimp only
  rw [newGame_resolveRng, newGame_rootCds, newGame_grid, newGame_currentPlayer,
    candidateMoves_empty15, hsim]
  dsimp only
  rw [if_neg (by simp)]
  rw [seedMoves_center]
  dsimp only
  have hskill : seedSkillChildren Player.black
      [(SearchAction.activateSkill STILL_WATERS none, sg,
        CooldownState.fromGame sg rootCds15.skillNames)]
      ([centerNode], { bestScore := none, bestActions := [] }) =
    ([centerNode,
      { priority := 1, gCost := 1, grid := emptyGrid15,
        playerToMove := Player.black,
        firstAction := SearchAction.activateSkill STILL_WATERS none,
        evaluation := 0, isTerminal := false,
        cooldownState := CooldownState.fromGame sg rootCds15.skillNames }],
     { bestScore := none, bestActions := [] }) := by
    unfold seedSkillChildren
    dsimp only
    rw [hgrid2, hcp2, hfin2, staticEvaluation_empty15, priorityOf_still]
    rfl
  rw [hskill]
  dsimp only
  rw [show (if (1 : Nat) < 1 then 1 else 1) = 1 from rfl]
  rw [searchLoop_c1]
  dsimp only
  rw [if_neg (by simp)]
  rw [Rng.choiceD_singleton]

/-! ## Claim C10: the choose_move wrapper -/

/-- C10: `choose_move` returns the coordinate of the placement selected
by `choose_action`, and raises a `ValueError` (never returning a
coordinate) when the selected action is a skill activation. -/
theorem chooseMove_spec (game : Game) (depth : Nat) (rngOpt : Option Rng)
    (a : SearchAction) (hok : chooseAction game depth rngOpt = .ok a) :
    (∀ c, a.move = some c → chooseMove game depth rngOpt = .ok c) ∧
    (a.move = none → chooseMove game depth rngOpt = .error (.valueError
      "Search selected a skill action; use choose_action for full context")) := by
  constructor
  · intro c hc
    unfold chooseMove
    rw [hok]
    dsimp only
    rw [hc]
  · intro hc
    unfold chooseMove
    rw [hok]
    dsimp only
    rw [hc]

/-- Witness for C10: on the full 2×2 board the search selects the Still
Waters skill, so `choose_move` raises. -/
theorem chooseMove_spec_witness :
    chooseMove skillOnlyGame 1 (some ⟨0⟩) = .error (.valueError
      "Search selected a skill action; use choose_action for full context") :=
  (chooseMove_spec skillOnlyGame 1 (some ⟨0⟩)
    (SearchAction.activateSkill STILL_WATERS none) rfl).2 rfl

end Gomoku
